import Mathlib

/-!
Shallow embedding of the raft cluster test fixture declared in
`include/raft/fixture.h`.

The repository ships only the header `include/raft/fixture.h`; the C
implementation file is not part of the source tree.  The operational
definitions below are therefore modelled from the header's documentation
comments (which describe the step engine in detail) and from the
specification, as indicated by the doc comments starting with
`Modelled from the spec:`.

The Raft consensus algorithm itself is out of scope of the fixture core: it
is an external collaborator consumed through a capability interface.  It is
modelled here as an abstract `Behavior` record of callback transition
functions that receive the server's raft state and return the new raft state
together with a list of I/O requests (sends / appends) to submit.
-/

namespace RaftFixture

/-- Maximum number of servers of a fixture (`RAFT_FIXTURE_MAX_SERVERS`). -/
def RAFT_FIXTURE_MAX_SERVERS : Nat := 8

/-- Fixture step event type: the tick callback has been invoked. -/
def RAFT_FIXTURE_TICK : Nat := 1

/-- Fixture step event type: a network request has been sent or received. -/
def RAFT_FIXTURE_NETWORK : Nat := 2

/-- Fixture step event type: an I/O request has been submitted. -/
def RAFT_FIXTURE_DISK : Nat := 3

/-- Modelled from the spec: the `RAFT_NOCONNECTION` error code of `raft.h`
(`raft.h` is not part of src/).  Its exact numeric value is unknown; the
model only relies on it being a fixed nonzero code. -/
def RAFT_NOCONNECTION : Int := 14

/-- Modelled from the spec: a generic nonzero error code for precondition
violations (bad arguments to `init`, `grow` past capacity). -/
def RAFT_EINVAL : Int := 2

/-- A log entry: `{term, type, payload}`.  The payload is opaque to the
fixture core and is modelled as a number. -/
structure RaftEntry where
  term : Nat
  type : Nat
  payload : Nat
deriving DecidableEq

/-- The state of a raft instance as reported through the capability
interface: follower, candidate, leader or unavailable. -/
inductive RaftStateKind where
  | follower
  | candidate
  | leader
  | unavailable
deriving DecidableEq

/-- The part of a raft instance the fixture core observes through the
capability interface: state kind, current term, voted-for, commit index,
last applied index and the log view. -/
structure RaftState where
  state : RaftStateKind
  currentTerm : Nat
  votedFor : Nat
  commitIndex : Nat
  lastApplied : Nat
  log : List RaftEntry
deriving DecidableEq

/-- A network message.  Transport encoding is out of scope; only the message
type (used by the send/recv counters) and an opaque payload are kept. -/
structure Message where
  type : Nat
  payload : Nat
deriving DecidableEq

/-- State of a directed connectivity edge: connected, disconnected or
saturated. -/
inductive EdgeState where
  | connected
  | disconnected
  | saturated
deriving DecidableEq

/-- A pending append request of the in-memory disk:
`{entries, completion_time, failing}`.  `failing` is set when the fault
schedule hit the submission, in which case the completion callback reports
an I/O error. -/
structure AppendReq where
  entries : List RaftEntry
  completionTime : Nat
  failing : Bool
deriving DecidableEq

/-- A pending outbound message in a sender's send queue.  `msgId` is a ghost
identity used only to state trace properties; `dest` is the destination
server index; `completionTime` is submit time plus half the sender's network
latency. -/
structure SendEntry where
  msgId : Nat
  dest : Nat
  msg : Message
  completionTime : Nat
deriving DecidableEq

/-- An in-flight message in the destination's transit queue: its send has
completed and it is due for delivery at `deliveryTime`.  `src` is the sender
index, used for the drop check at delivery time. -/
structure TransitEntry where
  msgId : Nat
  src : Nat
  dest : Nat
  msg : Message
  deliveryTime : Nat
deriving DecidableEq

/-- The in-memory I/O backend of one server: persisted state, the three
queues, the tick timer, latencies, the send/recv counters and the I/O fault
schedule. -/
structure IoState where
  term : Nat
  votedFor : Nat
  log : List RaftEntry
  appendQueue : List AppendReq
  sendQueue : List SendEntry
  transitQueue : List TransitEntry
  tickPeriod : Nat
  nextExpiry : Nat
  randomizedElectionTimeout : Nat
  networkLatency : Nat
  diskLatency : Nat
  nSend : Nat → Nat
  nRecv : Nat → Nat
  faultDelay : Int
  faultRepeat : Nat

/-- One server of the fixture (`struct raft_fixture_server`):
`{alive, id, io, raft}`.  The address string and logger are out of scope. -/
structure raft_fixture_server where
  alive : Bool
  id : Nat
  io : IoState
  raft : RaftState

/-- Information about a test cluster event triggered by the fixture
(`struct raft_fixture_event`). -/
structure raft_fixture_event where
  server_index : Nat
  type : Nat
deriving DecidableEq

/-- The fixture (`struct raft_fixture`): virtual time, server count, id of
the current stable leader (0 = none), the copy of the leader's log and
commit index taken at the previous step, the last fired event, the servers,
the directed connectivity matrix and a ghost counter handing out message
identities. -/
structure raft_fixture where
  time : Nat
  n : Nat
  leader_id : Nat
  log : List RaftEntry
  commit_index : Nat
  event : raft_fixture_event
  servers : List raft_fixture_server
  connectivity : Nat → Nat → EdgeState
  nextMsgId : Nat

/-- An I/O request issued by a raft callback through the capability
interface: submit a send to the server with the given id, or submit a disk
append. -/
inductive IoRequest where
  | send (destId : Nat) (msg : Message)
  | append (entries : List RaftEntry)

/-- Modelled from the spec: the external raft instance (out of scope of the
fixture core), abstracted as the callbacks the step engine invokes.  Each
callback maps the server index and current raft state to the new raft state
plus the I/O requests it submits. -/
structure Behavior where
  onTick : Nat → RaftState → RaftState × List IoRequest
  onRecv : Nat → Nat → Message → RaftState → RaftState × List IoRequest
  onSendDone : Nat → RaftState → RaftState × List IoRequest
  onAppendDone : Nat → Bool → RaftState → RaftState × List IoRequest

/-- A micro event of the trace emitted by one step: a send callback fired, a
message was delivered, a delivery was silently dropped, a tick fired, or a
disk completion fired. -/
inductive MicroEvent where
  | sendDone (server : Nat) (msgId : Nat) (msgType : Nat)
  | recv (server : Nat) (msgId : Nat) (msgType : Nat)
  | dropDelivery (server : Nat) (msgId : Nat)
  | tick (server : Nat)
  | disk (server : Nat)
deriving DecidableEq

/-- Result of one step: either the new fixture together with the micro
events fired during the step, or a fatal invariant violation (Election
Safety or Leader Append-Only), which aborts the test run. -/
inductive StepResult where
  | ok (f : raft_fixture) (tr : List MicroEvent)
  | fatal

/-- Kind of a phase-2 candidate event. -/
inductive EvKind where
  | tick
  | disk
  | net
deriving DecidableEq

/-- Priority of a phase-2 event kind at one server: tick events take
precedence over disk events, and disk events take precedence over network
events. -/
def kindPrio : EvKind → Nat
  | .tick => 0
  | .disk => 1
  | .net => 2

/-- The fixture event type code of a phase-2 event kind. -/
def evType : EvKind → Nat
  | .tick => RAFT_FIXTURE_TICK
  | .disk => RAFT_FIXTURE_DISK
  | .net => RAFT_FIXTURE_NETWORK

/-- Default raft state of a fresh server. -/
def initialRaftState : RaftState :=
  { state := .follower, currentTerm := 0, votedFor := 0, commitIndex := 0,
    lastApplied := 0, log := [] }

/-- Default I/O backend state of the i-th server: disk latency 10 ms,
network latency 15 ms, randomized election timeout `1000 + i * 100` ms,
fault schedule disabled. -/
def initialIoState (i : Nat) : IoState :=
  { term := 0, votedFor := 0, log := [], appendQueue := [], sendQueue := [],
    transitQueue := [], tickPeriod := 100, nextExpiry := 100,
    randomizedElectionTimeout := 1000 + i * 100,
    networkLatency := 15, diskLatency := 10,
    nSend := fun _ => 0, nRecv := fun _ => 0,
    faultDelay := -1, faultRepeat := 0 }

/-- A fresh server with index `i`: alive, id `i + 1`, default backend and
raft state. -/
def mkServer (i : Nat) : raft_fixture_server :=
  { alive := true, id := i + 1, io := initialIoState i,
    raft := initialRaftState }

/-- Initialize a raft cluster fixture with `n` servers, initially all
connected to one another (`raft_fixture_init`).  Returns the C-style status
code together with the fixture: on a server count above capacity the call
fails with a nonzero code and the given fixture memory is left unchanged. -/
def raft_fixture_init (f : raft_fixture) (n : Nat) : Int × raft_fixture :=
  if RAFT_FIXTURE_MAX_SERVERS < n then
    (RAFT_EINVAL, f)
  else
    (0, { time := 0, n := n, leader_id := 0, log := [], commit_index := 0,
          event := { server_index := 0, type := RAFT_FIXTURE_TICK },
          servers := (List.range n).map mkServer,
          connectivity := fun _ _ => .connected,
          nextMsgId := 0 })

/-- Add a new empty server to the cluster and connect it to all others
(`raft_fixture_grow`).  Fails with a nonzero code, leaving the fixture
unchanged, when the fixture is already at capacity. -/
def raft_fixture_grow (f : raft_fixture) : Int × raft_fixture :=
  if RAFT_FIXTURE_MAX_SERVERS ≤ f.n then
    (RAFT_EINVAL, f)
  else
    (0, { f with
          n := f.n + 1,
          servers := f.servers ++ [mkServer f.n],
          connectivity := fun a b =>
            if a = f.n ∨ b = f.n then .connected else f.connectivity a b })

/-- Return the current number of servers in the fixture. -/
def raft_fixture_n (f : raft_fixture) : Nat := f.n

/-- Return the current cluster time. -/
def raft_fixture_time (f : raft_fixture) : Nat := f.time

/-- Return true if the i-th server has not been killed. -/
def raft_fixture_alive (f : raft_fixture) (i : Nat) : Bool :=
  match f.servers[i]? with
  | some s => s.alive
  | none => false

/-- Return the index of the current leader, or the current number of servers
if there is no leader. -/
def raft_fixture_leader_index (f : raft_fixture) : Nat :=
  (f.servers.map (fun s => s.id)).findIdx (fun id => id = f.leader_id) |>
    (fun k => if k < f.servers.length then k else f.n)

/-- Disconnect the i-th from the j-th server, so attempts to send a message
from i to j will fail with `RAFT_NOCONNECTION`. -/
def raft_fixture_disconnect (f : raft_fixture) (i j : Nat) : raft_fixture :=
  { f with connectivity := fun a b =>
      if a = i ∧ b = j then .disconnected else f.connectivity a b }

/-- Reconnect the i-th to the j-th server, so attempts to send a message
from i to j will succeed again. -/
def raft_fixture_reconnect (f : raft_fixture) (i j : Nat) : raft_fixture :=
  { f with connectivity := fun a b =>
      if a = i ∧ b = j then .connected else f.connectivity a b }

/-- Saturate the connection from the i-th to the j-th server: messages sent
by i to j will be silently dropped at delivery time. -/
def raft_fixture_saturate (f : raft_fixture) (i j : Nat) : raft_fixture :=
  { f with connectivity := fun a b =>
      if a = i ∧ b = j then .saturated else f.connectivity a b }

/-- Return true if the connection from the i-th to the j-th server has been
set as saturated. -/
def raft_fixture_saturated (f : raft_fixture) (i j : Nat) : Bool :=
  f.connectivity i j = .saturated

/-- Desaturate the connection from the i-th to the j-th server. -/
def raft_fixture_desaturate (f : raft_fixture) (i j : Nat) : raft_fixture :=
  { f with connectivity := fun a b =>
      if a = i ∧ b = j then .connected else f.connectivity a b }

/-- Kill the server with the given index: it will not receive any message
and its tick callback will not be invoked. -/
def raft_fixture_kill (f : raft_fixture) (i : Nat) : raft_fixture :=
  match f.servers[i]? with
  | some s => { f with servers := f.servers.set i { s with alive := false } }
  | none => f

/-- The I/O backend state of server `i` (defaulting out of range). -/
def ioAt (f : raft_fixture) (i : Nat) : IoState :=
  match f.servers[i]? with
  | some s => s.io
  | none => initialIoState 0

/-- The raft state of server `i` (defaulting out of range). -/
def raftAt (f : raft_fixture) (i : Nat) : RaftState :=
  match f.servers[i]? with
  | some s => s.raft
  | none => initialRaftState

/-- Apply a transformation to the I/O backend of server `i`. -/
def updateIo (f : raft_fixture) (i : Nat) (g : IoState → IoState) :
    raft_fixture :=
  match f.servers[i]? with
  | some s => { f with servers := f.servers.set i { s with io := g s.io } }
  | none => f

/-- Replace the raft state of server `i`. -/
def setRaft (f : raft_fixture) (i : Nat) (r : RaftState) : raft_fixture :=
  match f.servers[i]? with
  | some s => { f with servers := f.servers.set i { s with raft := r } }
  | none => f

/-- Index of the server carrying the given id. -/
def serverIndexById (f : raft_fixture) (id : Nat) : Option Nat :=
  f.servers.findIdx? (fun s => s.id = id)

/-- Bump a per-message-type counter at one type. -/
def bumpCounter (c : Nat → Nat) (t : Nat) : Nat → Nat :=
  fun u => if u = t then c t + 1 else c u

/-- Modelled from the spec: `submit_send` of the in-memory I/O backend (the
implementation is not under src/).  A send from server `i` to the server
with id `destId` fails synchronously with `RAFT_NOCONNECTION` when the edge
to the destination is disconnected, leaving the fixture unchanged;
otherwise the message is enqueued in `i`'s send queue with completion time
`t + network_latency/2` and a fresh ghost message id. -/
def ioSubmitSend (f : raft_fixture) (i : Nat) (destId : Nat) (msg : Message) :
    Int × raft_fixture :=
  match serverIndexById f destId with
  | none => (RAFT_EINVAL, f)
  | some j =>
    if f.connectivity i j = .disconnected then
      (RAFT_NOCONNECTION, f)
    else if raft_fixture_alive f i = false then
      (RAFT_EINVAL, f)
    else
      (0, updateIo { f with nextMsgId := f.nextMsgId + 1 } i (fun io =>
            { io with sendQueue := io.sendQueue ++
                [{ msgId := f.nextMsgId, dest := j, msg := msg,
                   completionTime := f.time + io.networkLatency / 2 }] }))

/-- Modelled from the spec: `submit_append` of the in-memory I/O backend.
The fault schedule `{delay, repeat}` makes the next `delay` submissions
succeed and the following `repeat` submissions fail; a failing submission is
enqueued with completion time `t` and marked failing, a normal one with
completion time `t + disk_latency`. -/
def ioSubmitAppend (f : raft_fixture) (i : Nat) (entries : List RaftEntry) :
    raft_fixture :=
  updateIo f i (fun io =>
    if 0 < io.faultDelay then
      { io with faultDelay := io.faultDelay - 1,
                appendQueue := io.appendQueue ++
                  [{ entries := entries,
                     completionTime := f.time + io.diskLatency,
                     failing := false }] }
    else if io.faultDelay = 0 ∧ 0 < io.faultRepeat then
      { io with faultRepeat := io.faultRepeat - 1,
                appendQueue := io.appendQueue ++
                  [{ entries := entries, completionTime := f.time,
                     failing := true }] }
    else
      { io with appendQueue := io.appendQueue ++
          [{ entries := entries,
             completionTime := f.time + io.diskLatency,
             failing := false }] })

/-- Process one I/O request issued by a raft callback of server `i`.  A send
whose submission fails synchronously leaves the fixture unchanged. -/
def processRequest (f : raft_fixture) (i : Nat) : IoRequest → raft_fixture
  | .send destId msg => (ioSubmitSend f i destId msg).2
  | .append entries => ioSubmitAppend f i entries

/-- Process the I/O requests issued by a raft callback of server `i`, in
order. -/
def processRequests (f : raft_fixture) (i : Nat) (rs : List IoRequest) :
    raft_fixture :=
  rs.foldl (fun g r => processRequest g i r) f

/-- First index of a minimal-key element of a list, together with that
element (auxiliary, carrying the index of the head). -/
def firstMinIdxAux {α : Type} (key : α → Nat) : List α → Nat → Option (Nat × α)
  | [], _ => none
  | x :: xs, i =>
    match firstMinIdxAux key xs (i + 1) with
    | none => some (i, x)
    | some (j, y) => if key x ≤ key y then some (i, x) else some (j, y)

/-- First index of a minimal-key element of a list, together with that
element.  Used to pick the oldest entry with the lowest scheduled time out
of a queue (queues are kept in submission order). -/
def firstMinIdx {α : Type} (key : α → Nat) (l : List α) : Option (Nat × α) :=
  firstMinIdxAux key l 0

/-- The minimal key of a list, if any. -/
def minKeyOf {α : Type} (key : α → Nat) (l : List α) : Option Nat :=
  (firstMinIdx key l).map (fun p => key p.2)

/-- Phase 1 candidate of server `i`: the position and entry of the oldest
pending send completion of `i`'s send queue, if any. -/
def sendCandidate (f : raft_fixture) (i : Nat) : Option (Nat × SendEntry) :=
  firstMinIdx (fun e => e.completionTime) (ioAt f i).sendQueue

/-- Phase 1 selection: the globally oldest pending send completion (lowest
completion time, ties broken by lower server index), as
`(server_index, queue_position, entry)`. -/
def selectSendCompletion (f : raft_fixture) :
    Option (Nat × Nat × SendEntry) :=
  (List.range f.servers.length).foldl (fun acc i =>
    match sendCandidate f i with
    | none => acc
    | some (p, e) =>
      match acc with
      | none => some (i, p, e)
      | some (_, _, e2) =>
        if e.completionTime < e2.completionTime then some (i, p, e) else acc)
    none

/-- Append an in-flight message to the transit queue of server `j`. -/
def pushTransit (f : raft_fixture) (j : Nat) (e : TransitEntry) :
    raft_fixture :=
  updateIo f j (fun io => { io with transitQueue := io.transitQueue ++ [e] })

/-- Phase 1 of `raft_fixture_step`: fire the oldest pending send completion
of server `i` (position `p`, entry `e`).  This simulates completion of a
socket write: the clock advances to the entry's completion time, the
sender's send callback fires and its `n_send` counter for the message type
is bumped; if sender and receiver are currently disconnected the message is
simply dropped, otherwise it is moved to the destination's transit queue
with delivery half a network latency later.  The step event is NETWORK on
the sender. -/
def firePhase1 (B : Behavior) (f : raft_fixture) (i p : Nat) (e : SendEntry) :
    raft_fixture × List MicroEvent :=
  let f1 := updateIo f i (fun io =>
    { io with sendQueue := io.sendQueue.eraseIdx p })
  let f2 := { f1 with time := e.completionTime }
  let f3 := updateIo f2 i (fun io =>
    { io with nSend := bumpCounter io.nSend e.msg.type })
  let pr := B.onSendDone i (raftAt f3 i)
  let f4 := setRaft f3 i pr.1
  let lat := (ioAt f4 i).networkLatency
  let f5 :=
    if f4.connectivity i e.dest ≠ .disconnected ∧
        raft_fixture_alive f4 e.dest = true then
      pushTransit f4 e.dest
        { msgId := e.msgId, src := i, dest := e.dest, msg := e.msg,
          deliveryTime := e.completionTime + lat / 2 }
    else f4
  let f6 := processRequests f5 i pr.2
  ({ f6 with event := { server_index := i, type := RAFT_FIXTURE_NETWORK } },
   [MicroEvent.sendDone i e.msgId e.msg.type])

/-- Phase 2 candidates contributed by server `i`: its next tick expiry, its
earliest pending disk completion and its earliest pending network delivery,
each as `(server_index, kind, time)`.  A dead server contributes nothing. -/
def serverCandidates (f : raft_fixture) (i : Nat) :
    List (Nat × EvKind × Nat) :=
  match f.servers[i]? with
  | none => []
  | some s =>
    if s.alive then
      [(i, EvKind.tick, s.io.nextExpiry)] ++
      (match minKeyOf (fun a => a.completionTime) s.io.appendQueue with
       | some t => [(i, EvKind.disk, t)]
       | none => []) ++
      (match minKeyOf (fun m => m.deliveryTime) s.io.transitQueue with
       | some t => [(i, EvKind.net, t)]
       | none => [])
    else []

/-- All phase 2 candidate events across the cluster. -/
def phase2Candidates (f : raft_fixture) : List (Nat × EvKind × Nat) :=
  (List.range f.servers.length).foldr
    (fun i acc => serverCandidates f i ++ acc) []

/-- The total dispatch order on phase 2 candidates: lower time first; at
equal times lower server index first; at the same server, tick events take
precedence over disk events and disk events over network events. -/
def evLt : Nat × EvKind × Nat → Nat × EvKind × Nat → Prop
  | (i, k, t), (j, k2, t2) =>
    t < t2 ∨ (t = t2 ∧ (i < j ∨ (i = j ∧ kindPrio k < kindPrio k2)))

instance (a b : Nat × EvKind × Nat) : Decidable (evLt a b) := by
  rcases a with ⟨i, k, t⟩
  rcases b with ⟨j, k2, t2⟩
  unfold evLt
  infer_instance

/-- The first minimal candidate of a list under the dispatch order. -/
def pickMin : List (Nat × EvKind × Nat) → Option (Nat × EvKind × Nat)
  | [] => none
  | c :: cs =>
    match pickMin cs with
    | none => some c
    | some b => if evLt b c then some b else some c

/-- Phase 2 selection: the pending event with the lowest time across all
servers, ties broken by the dispatch order. -/
def phase2Select (f : raft_fixture) : Option (Nat × EvKind × Nat) :=
  pickMin (phase2Candidates f)

/-- Dispatch of a tick event at server `i`: the tick callback fires and the
timer is rescheduled one period later. -/
def dispatchTick (B : Behavior) (f : raft_fixture) (i : Nat) :
    raft_fixture × List MicroEvent :=
  let pr := B.onTick i (raftAt f i)
  let f1 := setRaft f i pr.1
  let f2 := updateIo f1 i (fun io =>
    { io with nextExpiry := io.nextExpiry + io.tickPeriod })
  let f3 := processRequests f2 i pr.2
  ({ f3 with event := { server_index := i, type := RAFT_FIXTURE_TICK } },
   [MicroEvent.tick i])

/-- Dispatch of a disk event at server `i`: the earliest pending append is
popped; on success the entries are persisted and the completion callback
fires with success, on a scheduled fault it fires with an I/O error. -/
def dispatchDisk (B : Behavior) (f : raft_fixture) (i : Nat) :
    raft_fixture × List MicroEvent :=
  match firstMinIdx (fun a => a.completionTime) (ioAt f i).appendQueue with
  | none =>
    ({ f with event := { server_index := i, type := RAFT_FIXTURE_DISK } }, [])
  | some (p, a) =>
    let f1 := updateIo f i (fun io =>
      { io with appendQueue := io.appendQueue.eraseIdx p })
    let f2 :=
      if a.failing then f1
      else updateIo f1 i (fun io => { io with log := io.log ++ a.entries })
    let pr := B.onAppendDone i (!a.failing) (raftAt f2 i)
    let f3 := setRaft f2 i pr.1
    let f4 := processRequests f3 i pr.2
    ({ f4 with event := { server_index := i, type := RAFT_FIXTURE_DISK } },
     [MicroEvent.disk i])

/-- Dispatch of a network event at server `i`: the earliest in-flight
message is popped from `i`'s transit queue; if the edge from its sender is
still connected and `i` is alive, the message is delivered (`n_recv` is
bumped and the receive callback fires), otherwise it is silently dropped.
Either way the step's event is NETWORK at `i`. -/
def dispatchNet (B : Behavior) (f : raft_fixture) (i : Nat) :
    raft_fixture × List MicroEvent :=
  match firstMinIdx (fun m => m.deliveryTime) (ioAt f i).transitQueue with
  | none =>
    ({ f with event := { server_index := i, type := RAFT_FIXTURE_NETWORK } },
     [])
  | some (p, m) =>
    let f1 := updateIo f i (fun io =>
      { io with transitQueue := io.transitQueue.eraseIdx p })
    if f1.connectivity m.src i = .connected ∧
        raft_fixture_alive f1 i = true then
      let f2 := updateIo f1 i (fun io =>
        { io with nRecv := bumpCounter io.nRecv m.msg.type })
      let pr := B.onRecv i m.src m.msg (raftAt f2 i)
      let f3 := setRaft f2 i pr.1
      let f4 := processRequests f3 i pr.2
      ({ f4 with
         event := { server_index := i, type := RAFT_FIXTURE_NETWORK } },
       [MicroEvent.recv i m.msgId m.msg.type])
    else
      ({ f1 with
         event := { server_index := i, type := RAFT_FIXTURE_NETWORK } },
       [MicroEvent.dropDelivery i m.msgId])

/-- Dispatch of the selected phase 2 event. -/
def dispatchEvent (B : Behavior) (f : raft_fixture) :
    Nat × EvKind × Nat → raft_fixture × List MicroEvent
  | (i, .tick, _) => dispatchTick B f i
  | (i, .disk, _) => dispatchDisk B f i
  | (i, .net, _) => dispatchNet B f i

/-- Whether index `a` of the server list holds a live server in leader
state. -/
def isAliveLeader (ss : List raft_fixture_server) (a : Nat) : Bool :=
  match ss[a]? with
  | some s => s.alive && decide (s.raft.state = RaftStateKind.leader)
  | none => false

/-- The current term reported by the server at index `a`. -/
def termAt (ss : List raft_fixture_server) (a : Nat) : Nat :=
  match ss[a]? with
  | some s => s.raft.currentTerm
  | none => 0

/-- The Election Safety check performed during leader detection: no two
distinct live servers are in leader state for the same term. -/
def electionSafetyHolds (ss : List raft_fixture_server) : Bool :=
  (List.range ss.length).all fun a =>
    (List.range ss.length).all fun b =>
      decide (a = b) ||
      !(isAliveLeader ss a && isAliveLeader ss b &&
        decide (termAt ss a = termAt ss b))

/-- The index of the live server in leader state with the highest term, if
any (lowest index wins inside a term tie). -/
def currentLeader (f : raft_fixture) : Option Nat :=
  (List.range f.servers.length).foldl (fun acc i =>
    if isAliveLeader f.servers i then
      match acc with
      | none => some i
      | some j =>
        if termAt f.servers j < termAt f.servers i then some i else some j
    else acc) none

/-- Modelled from the spec: whether server `j` acknowledges the leader at
index `L`.  The precise acknowledgement criterion is left open by the
specification; the model uses agreement on the current term. -/
def acksLeader (f : raft_fixture) (j L : Nat) : Bool :=
  decide (termAt f.servers j = termAt f.servers L)

/-- The live servers other than `L` that `L` can currently reach (both
directed edges connected). -/
def reachablePeers (f : raft_fixture) (L : Nat) : List Nat :=
  (List.range f.servers.length).filter (fun j =>
    decide (j ≠ L) && raft_fixture_alive f j &&
    decide (f.connectivity L j = EdgeState.connected) &&
    decide (f.connectivity j L = EdgeState.connected))

/-- The stable leader, if any: the highest-term live leader, provided it is
acknowledged by all servers it can currently reach and those servers
together with it form a majority of the cluster. -/
def stableLeader (f : raft_fixture) : Option Nat :=
  match currentLeader f with
  | none => none
  | some L =>
    let peers := reachablePeers f L
    if (peers.all fun j => acksLeader f j L) ∧
        f.n < 2 * (peers.length + 1) then
      some L
    else none

/-- Boolean prefix test on logs: same entries at the same indices. -/
def isLogPrefix : List RaftEntry → List RaftEntry → Bool
  | [], _ => true
  | _ :: _, [] => false
  | a :: as, b :: bs => decide (a = b) && isLogPrefix as bs

/-- Phases 3 to 5 of `raft_fixture_step`: detect the current cluster leader,
asserting Election Safety (a violation is fatal); when the stable leader is
unchanged since the previous step, assert Leader Append-Only against the log
copy taken then (a violation is fatal); finally record the stable leader and
copy its log and commit index for the next step.  When there is no stable
leader, record that there is none. -/
def checkAndSnapshot (f : raft_fixture) : Option raft_fixture :=
  if electionSafetyHolds f.servers = true then
    match stableLeader f with
    | some L =>
      match f.servers[L]? with
      | some s =>
        if f.leader_id ≠ 0 ∧ f.leader_id = s.id ∧
            isLogPrefix f.log s.raft.log = false then
          none
        else
          some { f with leader_id := s.id, log := s.raft.log,
                        commit_index := s.raft.commitIndex }
      | none => some { f with leader_id := 0 }
    | none => some { f with leader_id := 0 }
  else none

/-- Dispatch phases of `raft_fixture_step`: flush the oldest pending send
completion if there is one (phase 1), otherwise advance the clock to the
earliest pending disk completion, network delivery or tick expiry and
dispatch exactly one callback chosen by the total dispatch order (phase 2). -/
def stepDispatch (B : Behavior) (f : raft_fixture) :
    raft_fixture × List MicroEvent :=
  match selectSendCompletion f with
  | some (i, p, e) => firePhase1 B f i p e
  | none =>
    match phase2Select f with
    | some c => dispatchEvent B { f with time := c.2.2 } c
    | none => (f, [])

/-- One step of the cluster: the dispatch phases followed by the safety
checks and the stable-leader snapshot. -/
def raft_fixture_step (B : Behavior) (f : raft_fixture) : StepResult :=
  match checkAndSnapshot (stepDispatch B f).1 with
  | none => StepResult.fatal
  | some f2 => StepResult.ok f2 (stepDispatch B f).2

/-- Run `k` steps, collecting each step's micro events; `none` when a step
hits a fatal invariant violation. -/
def stepsTrace (B : Behavior) :
    Nat → raft_fixture → Option (raft_fixture × List (List MicroEvent))
  | 0, f => some (f, [])
  | k + 1, f =>
    match raft_fixture_step B f with
    | .fatal => none
    | .ok f1 tr =>
      match stepsTrace B k f1 with
      | none => none
      | some (f2, trs) => some (f2, tr :: trs)

/-- Set the randomized election timeout value handed to the i-th raft
instance. -/
def raft_fixture_set_randomized_election_timeout (f : raft_fixture)
    (i ms : Nat) : raft_fixture :=
  updateIo f i (fun io => { io with randomizedElectionTimeout := ms })

/-- Set the network latency of the i-th server. -/
def raft_fixture_set_network_latency (f : raft_fixture) (i ms : Nat) :
    raft_fixture :=
  updateIo f i (fun io => { io with networkLatency := ms })

/-- Set the disk I/O latency of the i-th server. -/
def raft_fixture_set_disk_latency (f : raft_fixture) (i ms : Nat) :
    raft_fixture :=
  updateIo f i (fun io => { io with diskLatency := ms })

/-- Set the persisted term of the i-th server. -/
def raft_fixture_set_term (f : raft_fixture) (i t : Nat) : raft_fixture :=
  updateIo f i (fun io => { io with term := t })

/-- Set the persisted entries of the i-th server. -/
def raft_fixture_set_entries (f : raft_fixture) (i : Nat)
    (es : List RaftEntry) : raft_fixture :=
  updateIo f i (fun io => { io with log := es })

/-- Add an entry to the persisted entries of the i-th server. -/
def raft_fixture_add_entry (f : raft_fixture) (i : Nat) (e : RaftEntry) :
    raft_fixture :=
  updateIo f i (fun io => { io with log := io.log ++ [e] })

/-- Inject an I/O failure on the i-th server after `delay` I/O requests,
occurring `rpt` times. -/
def raft_fixture_io_fault (f : raft_fixture) (i : Nat) (delay : Int)
    (rpt : Nat) : raft_fixture :=
  updateIo f i (fun io => { io with faultDelay := delay, faultRepeat := rpt })

/-- The number of messages of the given type that the i-th server has
successfully sent so far. -/
def raft_fixture_n_send (f : raft_fixture) (i t : Nat) : Nat :=
  (ioAt f i).nSend t

/-- The number of messages of the given type that the i-th server has
received so far. -/
def raft_fixture_n_recv (f : raft_fixture) (i t : Nat) : Nat :=
  (ioAt f i).nRecv t

/-- The ID of the server the i-th server has voted for, or zero. -/
def raft_fixture_voted_for (f : raft_fixture) (i : Nat) : Nat :=
  (raftAt f i).votedFor

/-- An external control call of the public control surface, as fed to a
simulation run. -/
inductive Control where
  | step
  | disconnect (i j : Nat)
  | reconnect (i j : Nat)
  | saturate (i j : Nat)
  | desaturate (i j : Nat)
  | kill (i : Nat)
  | grow
  | setNetworkLatency (i ms : Nat)
  | setDiskLatency (i ms : Nat)
  | setRandomizedElectionTimeout (i ms : Nat)
  | setTerm (i t : Nat)
  | addEntry (i : Nat) (e : RaftEntry)
  | ioFault (i : Nat) (delay : Int) (rpt : Nat)

/-- Apply one external control call, returning the fired `(time,
server_index, type)` tuples (one for a step, none for a setter); `none` on a
fatal invariant violation. -/
def applyControl (B : Behavior) (f : raft_fixture) :
    Control → Option (raft_fixture × List (Nat × Nat × Nat))
  | .step =>
    match raft_fixture_step B f with
    | .fatal => none
    | .ok f1 _ =>
      some (f1, [(f1.time, f1.event.server_index, f1.event.type)])
  | .disconnect i j => some (raft_fixture_disconnect f i j, [])
  | .reconnect i j => some (raft_fixture_reconnect f i j, [])
  | .saturate i j => some (raft_fixture_saturate f i j, [])
  | .desaturate i j => some (raft_fixture_desaturate f i j, [])
  | .kill i => some (raft_fixture_kill f i, [])
  | .grow => some ((raft_fixture_grow f).2, [])
  | .setNetworkLatency i ms =>
    some (raft_fixture_set_network_latency f i ms, [])
  | .setDiskLatency i ms => some (raft_fixture_set_disk_latency f i ms, [])
  | .setRandomizedElectionTimeout i ms =>
    some (raft_fixture_set_randomized_election_timeout f i ms, [])
  | .setTerm i t => some (raft_fixture_set_term f i t, [])
  | .addEntry i e => some (raft_fixture_add_entry f i e, [])
  | .ioFault i d r => some (raft_fixture_io_fault f i d r, [])

/-- Run a sequence of external control calls from an initial fixture state,
collecting the full sequence of fired `(time, server_index, type)` event
tuples. -/
def runControls (B : Behavior) (f : raft_fixture) :
    List Control → Option (raft_fixture × List (Nat × Nat × Nat))
  | [] => some (f, [])
  | c :: cs =>
    match applyControl B f c with
    | none => none
    | some (f1, evs) =>
      match runControls B f1 cs with
      | none => none
      | some (f2, evs2) => some (f2, evs ++ evs2)

/-- A blank fixture value, standing for the uninitialized memory handed to
`raft_fixture_init`. -/
def blankFixture : raft_fixture :=
  { time := 0, n := 0, leader_id := 0, log := [], commit_index := 0,
    event := { server_index := 0, type := RAFT_FIXTURE_TICK },
    servers := [], connectivity := fun _ _ => .connected, nextMsgId := 0 }

/-- A freshly initialized three-server fixture. -/
def fixture3 : raft_fixture := (raft_fixture_init blankFixture 3).2

/-- A freshly initialized fixture at full capacity. -/
def fixture8 : raft_fixture := (raft_fixture_init blankFixture 8).2

/-- A raft behavior whose callbacks change nothing and submit nothing; used
to instantiate theorems on concrete runs. -/
def trivialBehavior : Behavior :=
  { onTick := fun _ r => (r, []),
    onRecv := fun _ _ _ r => (r, []),
    onSendDone := fun _ r => (r, []),
    onAppendDone := fun _ _ r => (r, []) }

/-- The components of a fixture that the dispatch phases never touch:
server count, server array length, recorded stable leader, its log copy and
its commit index. -/
def Shape (f : raft_fixture) : Nat × Nat × Nat × List RaftEntry × Nat :=
  (f.n, f.servers.length, f.leader_id, f.log, f.commit_index)

theorem Shape_withTime (f : raft_fixture) (t : Nat) :
    Shape { f with time := t } = Shape f := rfl

theorem Shape_withEvent (f : raft_fixture) (e : raft_fixture_event) :
    Shape { f with event := e } = Shape f := rfl

theorem Shape_updateIo (f : raft_fixture) (i : Nat) (g : IoState → IoState) :
    Shape (updateIo f i g) = Shape f := by
  unfold updateIo
  cases f.servers[i]? <;> simp [Shape]

theorem Shape_setRaft (f : raft_fixture) (i : Nat) (r : RaftState) :
    Shape (setRaft f i r) = Shape f := by
  unfold setRaft
  cases f.servers[i]? <;> simp [Shape]

theorem Shape_pushTransit (f : raft_fixture) (j : Nat) (e : TransitEntry) :
    Shape (pushTransit f j e) = Shape f := by
  unfold pushTransit; exact Shape_updateIo ..

theorem Shape_ioSubmitSend (f : raft_fixture) (i destId : Nat)
    (msg : Message) : Shape (ioSubmitSend f i destId msg).2 = Shape f := by
  unfold ioSubmitSend
  cases serverIndexById f destId with
  | none => rfl
  | some j =>
    simp only
    split
    · rfl
    · split
      · rfl
      · rw [Shape_updateIo]; rfl

theorem Shape_ioSubmitAppend (f : raft_fixture) (i : Nat)
    (es : List RaftEntry) : Shape (ioSubmitAppend f i es) = Shape f := by
  unfold ioSubmitAppend; exact Shape_updateIo ..

theorem Shape_processRequest (f : raft_fixture) (i : Nat) (r : IoRequest) :
    Shape (processRequest f i r) = Shape f := by
  cases r with
  | send destId msg => exact Shape_ioSubmitSend ..
  | append es => exact Shape_ioSubmitAppend ..

theorem Shape_processRequests (f : raft_fixture) (i : Nat)
    (rs : List IoRequest) : Shape (processRequests f i rs) = Shape f := by
  induction rs generalizing f with
  | nil => rfl
  | cons r rs ih =>
    unfold processRequests
    simp only [List.foldl_cons]
    rw [show (List.foldl (fun g r => processRequest g i r)
          (processRequest f i r) rs) =
        processRequests (processRequest f i r) i rs from rfl,
      ih, Shape_processRequest]

theorem Shape_firePhase1 (B : Behavior) (f : raft_fixture) (i p : Nat)
    (e : SendEntry) : Shape (firePhase1 B f i p e).1 = Shape f := by
  unfold firePhase1
  simp only [Shape_withEvent, Shape_processRequests]
  split <;>
    simp only [Shape_pushTransit, Shape_setRaft, Shape_withTime,
      Shape_updateIo]

theorem Shape_dispatchTick (B : Behavior) (f : raft_fixture) (i : Nat) :
    Shape (dispatchTick B f i).1 = Shape f := by
  unfold dispatchTick
  simp only [Shape_withEvent, Shape_processRequests, Shape_updateIo,
    Shape_setRaft]

theorem Shape_dispatchDisk (B : Behavior) (f : raft_fixture) (i : Nat) :
    Shape (dispatchDisk B f i).1 = Shape f := by
  unfold dispatchDisk
  cases firstMinIdx (fun a => a.completionTime) (ioAt f i).appendQueue with
  | none => rfl
  | some pa =>
    simp only [Shape_withEvent, Shape_processRequests, Shape_setRaft]
    split <;> simp only [Shape_updateIo]

theorem Shape_dispatchNet (B : Behavior) (f : raft_fixture) (i : Nat) :
    Shape (dispatchNet B f i).1 = Shape f := by
  unfold dispatchNet
  cases firstMinIdx (fun m => m.deliveryTime) (ioAt f i).transitQueue with
  | none => rfl
  | some pm =>
    simp only
    split <;>
      simp only [Shape_withEvent, Shape_processRequests, Shape_setRaft,
        Shape_updateIo]

theorem Shape_dispatchEvent (B : Behavior) (f : raft_fixture)
    (c : Nat × EvKind × Nat) : Shape (dispatchEvent B f c).1 = Shape f := by
  rcases c with ⟨i, k, t⟩
  cases k with
  | tick => exact Shape_dispatchTick ..
  | disk => exact Shape_dispatchDisk ..
  | net => exact Shape_dispatchNet ..

theorem Shape_stepDispatch (B : Behavior) (f : raft_fixture) :
    Shape (stepDispatch B f).1 = Shape f := by
  unfold stepDispatch
  cases selectSendCompletion f with
  | some ipe => exact Shape_firePhase1 ..
  | none =>
    simp only
    cases phase2Select f with
    | some c => rw [Shape_dispatchEvent]; rfl
    | none => rfl

theorem n_checkAndSnapshot (f g : raft_fixture)
    (h : checkAndSnapshot f = some g) :
    g.n = f.n ∧ g.servers = f.servers := by
  unfold checkAndSnapshot at h
  split at h
  · split at h
    · split at h
      · split at h
        · exact absurd h (by simp)
        · exact ⟨by injection h with h2; rw [← h2],
                 by injection h with h2; rw [← h2]⟩
      · exact ⟨by injection h with h2; rw [← h2],
               by injection h with h2; rw [← h2]⟩
    · exact ⟨by injection h with h2; rw [← h2],
             by injection h with h2; rw [← h2]⟩
  · exact absurd h (by simp)

theorem step_preserves_capacity (B : Behavior) (f f1 : raft_fixture)
    (tr : List MicroEvent) (h : raft_fixture_step B f = .ok f1 tr) :
    f1.n = f.n ∧ f1.servers.length = f.servers.length := by
  unfold raft_fixture_step at h
  split at h
  · exact absurd h (by simp)
  · rename_i g hg
    injection h with h1 _
    subst h1
    have hs := n_checkAndSnapshot _ _ hg
    have hd := Shape_stepDispatch B f
    unfold Shape at hd
    refine ⟨?_, ?_⟩
    · rw [hs.1]; exact congrArg (fun p => p.1) hd
    · rw [hs.2]; exact congrArg (fun p => p.2.1) hd

/-- Capacity is a consequence of the untouched shape components. -/
theorem capacity_of_Shape_eq (f g : raft_fixture) (hs : Shape g = Shape f)
    (hn : f.n ≤ RAFT_FIXTURE_MAX_SERVERS ∧ f.servers.length = f.n) :
    g.n ≤ RAFT_FIXTURE_MAX_SERVERS ∧ g.servers.length = g.n := by
  have h1 : g.n = f.n := congrArg (fun p => p.1) hs
  have h2 : g.servers.length = f.servers.length :=
    congrArg (fun p => p.2.1) hs
  exact ⟨h1 ▸ hn.1, by rw [h1, h2, hn.2]⟩

theorem Shape_kill (f : raft_fixture) (i : Nat) :
    Shape (raft_fixture_kill f i) = Shape f := by
  unfold raft_fixture_kill
  cases f.servers[i]? <;> simp [Shape]

theorem applyControl_preserves_capacity (B : Behavior) (f f1 : raft_fixture)
    (c : Control) (evs : List (Nat × Nat × Nat))
    (h : applyControl B f c = some (f1, evs))
    (hn : f.n ≤ RAFT_FIXTURE_MAX_SERVERS ∧ f.servers.length = f.n) :
    f1.n ≤ RAFT_FIXTURE_MAX_SERVERS ∧ f1.servers.length = f1.n := by
  cases c with
  | step =>
    simp only [applyControl] at h
    cases hg : raft_fixture_step B f with
    | fatal => rw [hg] at h; exact absurd h (by simp)
    | ok g tr =>
      rw [hg] at h
      simp only [Option.some.injEq, Prod.mk.injEq] at h
      obtain ⟨h1, -⟩ := h
      subst h1
      have hp := step_preserves_capacity B f g tr hg
      exact ⟨hp.1 ▸ hn.1, by rw [hp.1, hp.2, hn.2]⟩
  | disconnect i j =>
    simp only [applyControl, Option.some.injEq, Prod.mk.injEq] at h
    obtain ⟨h1, -⟩ := h
    subst h1
    exact hn
  | reconnect i j =>
    simp only [applyControl, Option.some.injEq, Prod.mk.injEq] at h
    obtain ⟨h1, -⟩ := h
    subst h1
    exact hn
  | saturate i j =>
    simp only [applyControl, Option.some.injEq, Prod.mk.injEq] at h
    obtain ⟨h1, -⟩ := h
    subst h1
    exact hn
  | desaturate i j =>
    simp only [applyControl, Option.some.injEq, Prod.mk.injEq] at h
    obtain ⟨h1, -⟩ := h
    subst h1
    exact hn
  | kill i =>
    simp only [applyControl, Option.some.injEq, Prod.mk.injEq] at h
    obtain ⟨h1, -⟩ := h
    subst h1
    exact capacity_of_Shape_eq f _ (Shape_kill f i) hn
  | grow =>
    simp only [applyControl, Option.some.injEq, Prod.mk.injEq] at h
    obtain ⟨h1, -⟩ := h
    subst h1
    unfold raft_fixture_grow
    split
    · exact hn
    · rename_i hlt
      unfold RAFT_FIXTURE_MAX_SERVERS at hlt hn ⊢
      refine ⟨?_, ?_⟩
      · show f.n + 1 ≤ 8
        omega
      · show (f.servers ++ [mkServer f.n]).length = f.n + 1
        rw [List.length_append, hn.2]
        rfl
  | setNetworkLatency i ms =>
    simp only [applyControl, Option.some.injEq, Prod.mk.injEq] at h
    obtain ⟨h1, -⟩ := h
    subst h1
    exact capacity_of_Shape_eq f _ (Shape_updateIo ..) hn
  | setDiskLatency i ms =>
    simp only [applyControl, Option.some.injEq, Prod.mk.injEq] at h
    obtain ⟨h1, -⟩ := h
    subst h1
    exact capacity_of_Shape_eq f _ (Shape_updateIo ..) hn
  | setRandomizedElectionTimeout i ms =>
    simp only [applyControl, Option.some.injEq, Prod.mk.injEq] at h
    obtain ⟨h1, -⟩ := h
    subst h1
    exact capacity_of_Shape_eq f _ (Shape_updateIo ..) hn
  | setTerm i t =>
    simp only [applyControl, Option.some.injEq, Prod.mk.injEq] at h
    obtain ⟨h1, -⟩ := h
    subst h1
    exact capacity_of_Shape_eq f _ (Shape_updateIo ..) hn
  | addEntry i e =>
    simp only [applyControl, Option.some.injEq, Prod.mk.injEq] at h
    obtain ⟨h1, -⟩ := h
    subst h1
    exact capacity_of_Shape_eq f _ (Shape_updateIo ..) hn
  | ioFault i d r =>
    simp only [applyControl, Option.some.injEq, Prod.mk.injEq] at h
    obtain ⟨h1, -⟩ := h
    subst h1
    exact capacity_of_Shape_eq f _ (Shape_updateIo ..) hn

theorem runControls_preserves_capacity (B : Behavior) (cs : List Control)
    (f f' : raft_fixture) (evs : List (Nat × Nat × Nat))
    (h : runControls B f cs = some (f', evs))
    (hn : f.n ≤ RAFT_FIXTURE_MAX_SERVERS ∧ f.servers.length = f.n) :
    f'.n ≤ RAFT_FIXTURE_MAX_SERVERS ∧ f'.servers.length = f'.n := by
  induction cs generalizing f evs with
  | nil =>
    simp only [runControls, Option.some.injEq, Prod.mk.injEq] at h
    obtain ⟨h1, -⟩ := h
    subst h1
    exact hn
  | cons c cs ih =>
    simp only [runControls] at h
    cases hp : applyControl B f c with
    | none => rw [hp] at h; exact absurd h (by simp)
    | some pe =>
      obtain ⟨g, evs1⟩ := pe
      rw [hp] at h
      simp only at h
      cases hq : runControls B g cs with
      | none => rw [hq] at h; exact absurd h (by simp)
      | some qe =>
        obtain ⟨g2, evs2⟩ := qe
        rw [hq] at h
        simp only [Option.some.injEq, Prod.mk.injEq] at h
        obtain ⟨h1, -⟩ := h
        subst h1
        exact ih g evs2 hq
          (applyControl_preserves_capacity B f g c evs1 hp hn)

/-- C10: the fixture's server count never exceeds
`RAFT_FIXTURE_MAX_SERVERS = 8`: `raft_fixture_init` with more than 8 servers
and `raft_fixture_grow` on a fixture already holding 8 servers fail with a
nonzero return value and leave the fixture unchanged, and every run of
external control calls preserves the capacity bound on both the server count
and the servers array. -/
theorem capacity_never_exceeded :
    (∀ f n, RAFT_FIXTURE_MAX_SERVERS < n →
      (raft_fixture_init f n).1 ≠ 0 ∧ (raft_fixture_init f n).2 = f) ∧
    (∀ f, RAFT_FIXTURE_MAX_SERVERS ≤ f.n →
      (raft_fixture_grow f).1 ≠ 0 ∧ (raft_fixture_grow f).2 = f) ∧
    (∀ B f cs f' evs, runControls B f cs = some (f', evs) →
      f.n ≤ RAFT_FIXTURE_MAX_SERVERS ∧ f.servers.length = f.n →
      f'.n ≤ RAFT_FIXTURE_MAX_SERVERS ∧
        f'.servers.length ≤ RAFT_FIXTURE_MAX_SERVERS) := by
  refine ⟨?_, ?_, ?_⟩
  · intro f n hn
    unfold raft_fixture_init
    rw [if_pos hn]
    exact ⟨by show RAFT_EINVAL ≠ 0; decide, rfl⟩
  · intro f hf
    unfold raft_fixture_grow
    rw [if_pos hf]
    exact ⟨by show RAFT_EINVAL ≠ 0; decide, rfl⟩
  · intro B f cs f' evs h hn
    have hc := runControls_preserves_capacity B cs f f' evs h hn
    exact ⟨hc.1, hc.2 ▸ hc.1⟩

theorem capacity_never_exceeded_witness :
    ((raft_fixture_init blankFixture 9).1 ≠ 0 ∧
      (raft_fixture_init blankFixture 9).2 = blankFixture) ∧
    ((raft_fixture_grow fixture8).1 ≠ 0 ∧
      (raft_fixture_grow fixture8).2 = fixture8) ∧
    ((raft_fixture_grow fixture3).2.n ≤ RAFT_FIXTURE_MAX_SERVERS ∧
      (raft_fixture_grow fixture3).2.servers.length ≤
        RAFT_FIXTURE_MAX_SERVERS) :=
  ⟨capacity_never_exceeded.1 blankFixture 9 (by decide),
   capacity_never_exceeded.2.1 fixture8 (by decide),
   capacity_never_exceeded.2.2 trivialBehavior fixture3 [Control.grow]
     (raft_fixture_grow fixture3).2 [] rfl ⟨by decide, by decide⟩⟩

/-- C3: the simulator is deterministic: two runs starting from identical
initial states and receiving identical external control calls in identical
order fire identical sequences of `(time, server_index, type)` event
tuples. -/
theorem run_deterministic (B : Behavior) (f1 f2 : raft_fixture)
    (cs1 cs2 : List Control) (hf : f1 = f2) (hc : cs1 = cs2) :
    (runControls B f1 cs1).map (fun p => p.2) =
      (runControls B f2 cs2).map (fun p => p.2) := by
  subst hf hc
  rfl

theorem run_deterministic_witness :
    (runControls trivialBehavior fixture3 [Control.step, Control.step]).map
        (fun p => p.2) =
      (runControls trivialBehavior fixture3 [Control.step, Control.step]).map
        (fun p => p.2) :=
  run_deterministic trivialBehavior fixture3 fixture3
    [Control.step, Control.step] [Control.step, Control.step] rfl rfl

/-- C6: a send submitted on a disconnected edge fails synchronously with
the `RAFT_NOCONNECTION` error (a nonzero code) and the message is never
enqueued in any queue: the submission returns the fixture unchanged, and
processing such a send request from a raft callback leaves the fixture
unchanged. -/
theorem send_disconnected_fails (f : raft_fixture) (i j destId : Nat)
    (msg : Message) (hj : serverIndexById f destId = some j)
    (hd : f.connectivity i j = EdgeState.disconnected) :
    ioSubmitSend f i destId msg = (RAFT_NOCONNECTION, f) ∧
      RAFT_NOCONNECTION ≠ 0 ∧
      processRequest f i (IoRequest.send destId msg) = f := by
  have h1 : ioSubmitSend f i destId msg = (RAFT_NOCONNECTION, f) := by
    unfold ioSubmitSend
    rw [hj]
    simp only
    rw [if_pos hd]
  refine ⟨h1, by decide, ?_⟩
  show (ioSubmitSend f i destId msg).2 = f
  rw [h1]

/-- A three-server fixture whose edge from server 0 to server 1 has been
disconnected. -/
def fixture3d : raft_fixture := raft_fixture_disconnect fixture3 0 1

theorem send_disconnected_fails_witness :
    ioSubmitSend fixture3d 0 2 { type := 5, payload := 0 } =
        (RAFT_NOCONNECTION, fixture3d) ∧
      RAFT_NOCONNECTION ≠ 0 ∧
      processRequest fixture3d 0
        (IoRequest.send 2 { type := 5, payload := 0 }) = fixture3d :=
  send_disconnected_fails fixture3d 0 1 2 { type := 5, payload := 0 }
    (by decide) (by decide)

/-- C7: disconnecting an edge and then reconnecting it restores the edge to
the connected state, and with the edge initially connected it restores the
whole fixture, so subsequent sends from i to j succeed exactly as they did
before the disconnect. -/
theorem reconnect_restores (f : raft_fixture) (i j : Nat)
    (h : f.connectivity i j = EdgeState.connected) :
    raft_fixture_reconnect (raft_fixture_disconnect f i j) i j = f ∧
      (raft_fixture_reconnect (raft_fixture_disconnect f i j) i j).connectivity
        i j = EdgeState.connected := by
  have hfun :
      (raft_fixture_reconnect (raft_fixture_disconnect f i j) i j).connectivity
        = f.connectivity := by
    funext a b
    unfold raft_fixture_reconnect raft_fixture_disconnect
    simp only
    by_cases hab : a = i ∧ b = j
    · rw [if_pos hab, hab.1, hab.2, h]
    · rw [if_neg hab, if_neg hab]
  refine ⟨?_, by rw [hfun]; exact h⟩
  obtain ⟨t, n, lid, lg, ci, ev, sv, conn, nm⟩ := f
  unfold raft_fixture_reconnect raft_fixture_disconnect at hfun ⊢
  simp only at hfun ⊢
  rw [raft_fixture.mk.injEq]
  exact ⟨rfl, rfl, rfl, rfl, rfl, rfl, rfl, hfun, rfl⟩

theorem reconnect_restores_witness :
    raft_fixture_reconnect (raft_fixture_disconnect fixture3 0 1) 0 1 =
        fixture3 ∧
      (raft_fixture_reconnect (raft_fixture_disconnect fixture3 0 1)
          0 1).connectivity 0 1 = EdgeState.connected :=
  reconnect_restores fixture3 0 1 (by decide)

/-- C9: when there is no current leader (encoded by the `leader_id` field
holding 0) `raft_fixture_leader_index` returns the current number of
servers; when a leader exists among the servers it returns an index strictly
below the number of servers. -/
theorem leader_index_spec (f : raft_fixture)
    (hlen : f.servers.length = f.n)
    (hids : ∀ s ∈ f.servers, s.id ≠ 0) :
    (f.leader_id = 0 → raft_fixture_leader_index f = f.n) ∧
    ((∃ s ∈ f.servers, s.id = f.leader_id) →
      raft_fixture_leader_index f < f.n) := by
  constructor
  · intro h0
    unfold raft_fixture_leader_index
    simp only
    have hall : (f.servers.map (fun s => s.id)).findIdx
        (fun id => id = f.leader_id) =
        (f.servers.map (fun s => s.id)).length := by
      rw [List.findIdx_eq_length]
      intro x hx
      obtain ⟨s, hs, hsx⟩ := List.mem_map.mp hx
      subst hsx
      rw [h0]
      exact decide_eq_false (hids s hs)
    rw [hall, List.length_map]
    rw [if_neg (lt_irrefl _)]
  · intro hex
    obtain ⟨s, hs, hid⟩ := hex
    unfold raft_fixture_leader_index
    simp only
    have hlt : (f.servers.map (fun s => s.id)).findIdx
        (fun id => id = f.leader_id) <
        (f.servers.map (fun s => s.id)).length := by
      apply List.findIdx_lt_length_of_exists
      exact ⟨s.id, List.mem_map_of_mem _ hs, by rw [hid]; exact decide_eq_true rfl⟩
    rw [List.length_map] at hlt
    rw [if_pos hlt, ← hlen]
    exact hlt

theorem leader_index_spec_witness :
    raft_fixture_leader_index fixture3 = fixture3.n ∧
      raft_fixture_leader_index { fixture3 with leader_id := 2 } <
        ({ fixture3 with leader_id := 2 } : raft_fixture).n :=
  ⟨(leader_index_spec fixture3 (by decide) (by decide)).1 rfl,
   (leader_index_spec { fixture3 with leader_id := 2 } (by decide)
       (by decide)).2 (by decide)⟩

/-- Election Safety as a proposition over a server array: no two distinct
live servers report leader state at the same term. -/
def ElectionSafe (ss : List raft_fixture_server) : Prop :=
  ∀ a b, a ≠ b → isAliveLeader ss a = true → isAliveLeader ss b = true →
    termAt ss a ≠ termAt ss b

theorem isAliveLeader_lt (ss : List raft_fixture_server) (a : Nat)
    (h : isAliveLeader ss a = true) : a < ss.length := by
  by_contra hge
  have : ss[a]? = none := List.getElem?_eq_none (Nat.le_of_not_lt hge)
  unfold isAliveLeader at h
  rw [this] at h
  exact absurd h (by simp)

theorem electionSafetyHolds_spec (ss : List raft_fixture_server)
    (h : electionSafetyHolds ss = true) : ElectionSafe ss := by
  intro a b hab ha hb
  have ha' : a < ss.length := isAliveLeader_lt ss a ha
  have hb' : b < ss.length := isAliveLeader_lt ss b hb
  unfold electionSafetyHolds at h
  rw [List.all_eq_true] at h
  have h1 := h a (List.mem_range.mpr ha')
  rw [List.all_eq_true] at h1
  have h2 := h1 b (List.mem_range.mpr hb')
  intro heq
  simp [hab, ha, hb, heq] at h2

theorem checkAndSnapshot_safety (f g : raft_fixture)
    (h : checkAndSnapshot f = some g) :
    electionSafetyHolds g.servers = true := by
  have hs : electionSafetyHolds f.servers = true := by
    by_contra hs
    unfold checkAndSnapshot at h
    rw [if_neg hs] at h
    exact absurd h (by simp)
  rw [(n_checkAndSnapshot f g h).2]
  exact hs

/-- C1: Election Safety holds at every step: every fixture state produced by
a non-aborting `raft_fixture_step` satisfies Election Safety, because the
step engine checks it during leader detection and a violation is a fatal
test-abort. -/
theorem step_election_safety (B : Behavior) (f f' : raft_fixture)
    (tr : List MicroEvent) (h : raft_fixture_step B f = .ok f' tr) :
    ElectionSafe f'.servers := by
  unfold raft_fixture_step at h
  cases hc : checkAndSnapshot (stepDispatch B f).1 with
  | none => rw [hc] at h; exact absurd h (by simp)
  | some g =>
    rw [hc] at h
    simp only [StepResult.ok.injEq] at h
    obtain ⟨h1, -⟩ := h
    subst h1
    exact electionSafetyHolds_spec _ (checkAndSnapshot_safety _ _ hc)

/-- Extract the resulting fixture of a non-aborting step. -/
def stepOkState (r : StepResult) : raft_fixture :=
  match r with
  | .ok f _ => f
  | .fatal => blankFixture

/-- Extract the micro event trace of a non-aborting step. -/
def stepOkTrace (r : StepResult) : List MicroEvent :=
  match r with
  | .ok _ tr => tr
  | .fatal => []

theorem step_election_safety_witness :
    ElectionSafe
      (stepOkState (raft_fixture_step trivialBehavior fixture3)).servers :=
  step_election_safety trivialBehavior fixture3 _ _ rfl

theorem isLogPrefix_iff (l1 l2 : List RaftEntry) :
    isLogPrefix l1 l2 = true ↔ l1 <+: l2 := by
  induction l1 generalizing l2 with
  | nil => simp [isLogPrefix, List.nil_prefix]
  | cons a as ih =>
    cases l2 with
    | nil => simp [isLogPrefix, List.prefix_nil]
    | cons b bs => simp [isLogPrefix, ih, List.cons_prefix_cons]

theorem leader_id_log_stepDispatch (B : Behavior) (f : raft_fixture) :
    (stepDispatch B f).1.leader_id = f.leader_id ∧
      (stepDispatch B f).1.log = f.log := by
  have h := Shape_stepDispatch B f
  exact ⟨congrArg (fun p => p.2.2.1) h, congrArg (fun p => p.2.2.2.1) h⟩

theorem checkAndSnapshot_append_only (g f2 : raft_fixture)
    (h : checkAndSnapshot g = some f2) (hL : g.leader_id ≠ 0)
    (hsame : f2.leader_id = g.leader_id) : g.log <+: f2.log := by
  unfold checkAndSnapshot at h
  split at h
  · split at h
    · rename_i L hstable
      split at h
      · rename_i s hs
        split at h
        · exact absurd h (by simp)
        · rename_i hcond
          simp only [Option.some.injEq] at h
          subst h
          simp only at hsame
          push_neg at hcond
          have hpre : isLogPrefix g.log s.raft.log = true := by
            have := hcond (hsame ▸ hL) hsame.symm
            cases hb : isLogPrefix g.log s.raft.log with
            | false => exact absurd hb this
            | true => rfl
          exact (isLogPrefix_iff _ _).mp hpre
      · simp only [Option.some.injEq] at h
        subst h
        exact absurd hsame (fun hh => hL hh.symm)
    · simp only [Option.some.injEq] at h
      subst h
      exact absurd hsame (fun hh => hL hh.symm)
  · exact absurd h (by simp)

/-- C2: Leader Append-Only across steps: when two consecutive non-aborting
calls to `raft_fixture_step` detect the same stable leader (nonzero
`leader_id` recorded by the first step and unchanged by the second), the log
snapshot taken at the earlier step is a prefix of the leader's log recorded
at the later step. -/
theorem leader_append_only (B : Behavior) (f f1 f2 : raft_fixture)
    (tr1 tr2 : List MicroEvent)
    (h1 : raft_fixture_step B f = .ok f1 tr1)
    (h2 : raft_fixture_step B f1 = .ok f2 tr2)
    (hL : f1.leader_id ≠ 0)
    (hsame : f2.leader_id = f1.leader_id) : f1.log <+: f2.log := by
  unfold raft_fixture_step at h2
  cases hc : checkAndSnapshot (stepDispatch B f1).1 with
  | none => rw [hc] at h2; exact absurd h2 (by simp)
  | some g =>
    rw [hc] at h2
    simp only [StepResult.ok.injEq] at h2
    obtain ⟨h2, -⟩ := h2
    subst h2
    have hsh := leader_id_log_stepDispatch B f1
    rw [← hsh.2]
    exact checkAndSnapshot_append_only _ _ hc (hsh.1 ▸ hL)
      (hsame.trans hsh.1.symm)

/-- A single-server fixture whose raft instance reports leader state at
term 1. -/
def fixtureL : raft_fixture :=
  setRaft (raft_fixture_init blankFixture 1).2 0
    { initialRaftState with state := .leader, currentTerm := 1 }

theorem leader_append_only_witness :
    (stepOkState (raft_fixture_step trivialBehavior fixtureL)).log <+:
      (stepOkState (raft_fixture_step trivialBehavior
        (stepOkState (raft_fixture_step trivialBehavior fixtureL)))).log :=
  leader_append_only trivialBehavior fixtureL _ _ _ _ rfl rfl
    (by decide) (by decide)

theorem evLt_iff (i j t t2 : Nat) (k k2 : EvKind) :
    evLt (i, k, t) (j, k2, t2) ↔
      t < t2 ∨ (t = t2 ∧ (i < j ∨ (i = j ∧ kindPrio k < kindPrio k2))) :=
  Iff.rfl

theorem evLt_irrefl (a : Nat × EvKind × Nat) : ¬ evLt a a := by
  rcases a with ⟨i, k, t⟩
  rw [evLt_iff]
  omega

theorem evLt_asymm (a b : Nat × EvKind × Nat) (h : evLt a b) :
    ¬ evLt b a := by
  rcases a with ⟨i, k, t⟩
  rcases b with ⟨j, k2, t2⟩
  rw [evLt_iff] at h ⊢
  omega

theorem evLt_neg_trans (a b c : Nat × EvKind × Nat) (hab : ¬ evLt a b)
    (hbc : ¬ evLt b c) : ¬ evLt a c := by
  rcases a with ⟨i, k, t⟩
  rcases b with ⟨j, k2, t2⟩
  rcases c with ⟨u, k3, t3⟩
  rw [evLt_iff] at hab hbc ⊢
  omega

theorem pickMin_cons (c : Nat × EvKind × Nat) (cs : List (Nat × EvKind × Nat)) :
    pickMin (c :: cs) =
      match pickMin cs with
      | none => some c
      | some b => if evLt b c then some b else some c := rfl

theorem pickMin_isSome (c : Nat × EvKind × Nat)
    (cs : List (Nat × EvKind × Nat)) : pickMin (c :: cs) ≠ none := by
  rw [pickMin_cons]
  cases pickMin cs with
  | none => simp
  | some b =>
    show ¬ (if evLt b c then some b else some c) = none
    split <;> simp

/-- The phase 2 selection is the minimum of the candidate list under the
total dispatch order. -/
theorem pickMin_spec (l : List (Nat × EvKind × Nat)) (m : Nat × EvKind × Nat)
    (h : pickMin l = some m) : m ∈ l ∧ ∀ c ∈ l, ¬ evLt c m := by
  induction l generalizing m with
  | nil => exact absurd h (by simp [pickMin])
  | cons c cs ih =>
    rw [pickMin_cons] at h
    cases hp : pickMin cs with
    | none =>
      rw [hp] at h
      have hm : m = c := by injection h with h2; exact h2.symm
      rw [hm]
      have hnil : cs = [] := by
        cases cs with
        | nil => rfl
        | cons d ds => exact absurd hp (pickMin_isSome d ds)
      subst hnil
      refine ⟨List.mem_cons_self c [], ?_⟩
      intro x hx
      rcases List.mem_cons.mp hx with hx1 | hx2
      · rw [hx1]; exact evLt_irrefl c
      · exact absurd hx2 (List.not_mem_nil x)
    | some b =>
      rw [hp] at h
      change (if evLt b c then some b else some c) = some m at h
      by_cases hbc : evLt b c
      · rw [if_pos hbc] at h
        have hm : m = b := by injection h with h2; exact h2.symm
        rw [hm]
        obtain ⟨hmem, hall⟩ := ih b hp
        refine ⟨List.mem_cons_of_mem c hmem, ?_⟩
        intro x hx
        rcases List.mem_cons.mp hx with hx1 | hx2
        · rw [hx1]; exact evLt_asymm b c hbc
        · exact hall x hx2
      · rw [if_neg hbc] at h
        have hm : m = c := by injection h with h2; exact h2.symm
        rw [hm]
        obtain ⟨hbmem, hball⟩ := ih b hp
        refine ⟨List.mem_cons_self c cs, ?_⟩
        intro x hx
        rcases List.mem_cons.mp hx with hx1 | hx2
        · rw [hx1]; exact evLt_irrefl c
        · exact evLt_neg_trans x b c (hball x hx2) hbc

theorem event_checkAndSnapshot (f g : raft_fixture)
    (h : checkAndSnapshot f = some g) : g.event = f.event := by
  unfold checkAndSnapshot at h
  split at h
  · split at h
    · split at h
      · split at h
        · exact absurd h (by simp)
        · injection h with h2; rw [← h2]
      · injection h with h2; rw [← h2]
    · injection h with h2; rw [← h2]
  · exact absurd h (by simp)

theorem event_dispatchTick (B : Behavior) (f : raft_fixture) (i : Nat) :
    (dispatchTick B f i).1.event =
      { server_index := i, type := RAFT_FIXTURE_TICK } := rfl

theorem event_dispatchDisk (B : Behavior) (f : raft_fixture) (i : Nat) :
    (dispatchDisk B f i).1.event =
      { server_index := i, type := RAFT_FIXTURE_DISK } := by
  unfold dispatchDisk
  cases firstMinIdx (fun a => a.completionTime) (ioAt f i).appendQueue with
  | none => rfl
  | some pa => obtain ⟨p, a⟩ := pa; rfl

theorem event_dispatchNet (B : Behavior) (f : raft_fixture) (i : Nat) :
    (dispatchNet B f i).1.event =
      { server_index := i, type := RAFT_FIXTURE_NETWORK } := by
  unfold dispatchNet
  cases firstMinIdx (fun m => m.deliveryTime) (ioAt f i).transitQueue with
  | none => rfl
  | some pm =>
    obtain ⟨p, m⟩ := pm
    simp only
    split <;> rfl

theorem event_dispatchEvent (B : Behavior) (f : raft_fixture)
    (c : Nat × EvKind × Nat) :
    (dispatchEvent B f c).1.event =
      { server_index := c.1, type := evType c.2.1 } := by
  rcases c with ⟨i, k, t⟩
  cases k with
  | tick => exact event_dispatchTick ..
  | disk => exact event_dispatchDisk ..
  | net => exact event_dispatchNet ..

/-- C4: when phase 2 selects among the pending events (disk completions,
network deliveries, tick expiries), the selected event is a candidate whose
time is the minimum time `T`; every candidate at time `T` loses to it under
the total order: the lowest server index wins, and among kinds at that
server tick takes precedence over disk and disk over network.  Exactly one
callback is dispatched: the step's event is the selected one. -/
theorem phase2_tie_break (f : raft_fixture) (i : Nat) (k : EvKind) (T : Nat)
    (h : phase2Select f = some (i, k, T)) :
    (i, k, T) ∈ phase2Candidates f ∧
    (∀ j k2 t2, (j, k2, t2) ∈ phase2Candidates f → T ≤ t2) ∧
    (∀ j k2, (j, k2, T) ∈ phase2Candidates f →
      i < j ∨ (i = j ∧ kindPrio k ≤ kindPrio k2)) ∧
    (∀ B f' tr, selectSendCompletion f = none →
      raft_fixture_step B f = .ok f' tr →
      f'.event = { server_index := i, type := evType k }) := by
  obtain ⟨hmem, hall⟩ := pickMin_spec (phase2Candidates f) (i, k, T) h
  refine ⟨hmem, ?_, ?_, ?_⟩
  · intro j k2 t2 hc
    have hlt := hall _ hc
    rw [evLt_iff] at hlt
    omega
  · intro j k2 hc
    have hlt := hall _ hc
    rw [evLt_iff] at hlt
    omega
  · intro B f' tr hsel hstep
    unfold raft_fixture_step at hstep
    cases hc : checkAndSnapshot (stepDispatch B f).1 with
    | none => rw [hc] at hstep; exact absurd hstep (by simp)
    | some g =>
      rw [hc] at hstep
      simp only [StepResult.ok.injEq] at hstep
      obtain ⟨h1, -⟩ := hstep
      subst h1
      rw [event_checkAndSnapshot _ _ hc]
      have hdef : stepDispatch B f =
          dispatchEvent B { f with time := T } (i, k, T) := by
        unfold stepDispatch
        rw [hsel, h]
      rw [hdef, event_dispatchEvent]

theorem phase2_tie_break_witness :
    ((0, EvKind.tick, 100) ∈ phase2Candidates fixture3) ∧
    ((100 : Nat) ≤ 100) ∧
    (0 < 1 ∨ (0 = 1 ∧ kindPrio EvKind.tick ≤ kindPrio EvKind.tick)) ∧
    (stepOkState (raft_fixture_step trivialBehavior fixture3)).event =
      { server_index := 0, type := evType EvKind.tick } := by
  have H := phase2_tie_break fixture3 0 EvKind.tick 100 (by decide)
  exact ⟨H.1, H.2.1 1 EvKind.tick 100 (by decide),
    H.2.2.1 1 EvKind.tick (by decide),
    H.2.2.2 trivialBehavior _ _ (by decide) rfl⟩

theorem lt_of_getElem?_some {α : Type} {l : List α} {i : Nat} {a : α}
    (h : l[i]? = some a) : i < l.length := by
  by_contra hge
  rw [List.getElem?_eq_none (Nat.le_of_not_lt hge)] at h
  exact absurd h (by simp)

theorem ioAt_set (f : raft_fixture) (j : Nat) (s' : raft_fixture_server)
    (i : Nat) :
    ioAt { f with servers := f.servers.set j s' } i =
      if j = i ∧ j < f.servers.length then s'.io else ioAt f i := by
  unfold ioAt
  simp only
  rw [List.getElem?_set]
  by_cases hij : j = i
  · subst hij
    by_cases hlen : j < f.servers.length
    · rw [if_pos rfl, if_pos hlen, if_pos ⟨rfl, hlen⟩]
    · rw [if_pos rfl, if_neg hlen, if_neg (fun hc => hlen hc.2),
        List.getElem?_eq_none (Nat.le_of_not_lt hlen)]
  · rw [if_neg hij, if_neg (fun hc => hij hc.1)]

theorem ioAt_updateIo (f : raft_fixture) (j : Nat) (g : IoState → IoState)
    (i : Nat) :
    ioAt (updateIo f j g) i =
      if j = i ∧ j < f.servers.length then g (ioAt f j) else ioAt f i := by
  unfold updateIo
  cases hs : f.servers[j]? with
  | none =>
    have hge : ¬ j < f.servers.length := by
      intro hlt
      rw [List.getElem?_eq_getElem hlt] at hs
      exact absurd hs (by simp)
    rw [if_neg (fun hc => hge hc.2)]
  | some s =>
    rw [ioAt_set]
    by_cases hc : j = i ∧ j < f.servers.length
    · rw [if_pos hc, if_pos hc]
      show g s.io = g (ioAt f j)
      unfold ioAt
      rw [hs]
    · rw [if_neg hc, if_neg hc]

theorem ioAt_setRaft (f : raft_fixture) (j : Nat) (r : RaftState) (i : Nat) :
    ioAt (setRaft f j r) i = ioAt f i := by
  unfold setRaft
  cases hs : f.servers[j]? with
  | none => rfl
  | some s =>
    rw [ioAt_set]
    split
    · rename_i hc
      show s.io = ioAt f i
      rw [← hc.1]
      unfold ioAt
      rw [hs]
    · rfl

/-- Number of send callbacks fired by server `i` for message type `t` in a
micro event trace. -/
def countSendDone (tr : List MicroEvent) (i t : Nat) : Nat :=
  tr.countP (fun ev =>
    match ev with
    | MicroEvent.sendDone j _ t2 => decide (j = i ∧ t2 = t)
    | _ => false)

/-- Number of deliveries to server `i` of message type `t` in a micro event
trace (silent drops are not deliveries). -/
def countRecv (tr : List MicroEvent) (i t : Nat) : Nat :=
  tr.countP (fun ev =>
    match ev with
    | MicroEvent.recv j _ t2 => decide (j = i ∧ t2 = t)
    | _ => false)

/-- The pair of the `n_send` and `n_recv` counters of server `i` at message
type `t`. -/
def countersAt (f : raft_fixture) (i t : Nat) : Nat × Nat :=
  (raft_fixture_n_send f i t, raft_fixture_n_recv f i t)

theorem countSendDone_sendDone (j m t0 i t : Nat) :
    countSendDone [MicroEvent.sendDone j m t0] i t =
      if i = j ∧ t = t0 then 1 else 0 := by
  unfold countSendDone
  rw [List.countP_cons, List.countP_nil]
  by_cases hc : i = j ∧ t = t0
  · rw [if_pos hc]
    have hd : decide (j = i ∧ t0 = t) = true :=
      decide_eq_true ⟨hc.1.symm, hc.2.symm⟩
    simp [hd]
  · rw [if_neg hc]
    have hd : decide (j = i ∧ t0 = t) = false :=
      decide_eq_false (fun hh => hc ⟨hh.1.symm, hh.2.symm⟩)
    simp [hd]

theorem countRecv_recv (j m t0 i t : Nat) :
    countRecv [MicroEvent.recv j m t0] i t =
      if i = j ∧ t = t0 then 1 else 0 := by
  unfold countRecv
  rw [List.countP_cons, List.countP_nil]
  by_cases hc : i = j ∧ t = t0
  · rw [if_pos hc]
    have hd : decide (j = i ∧ t0 = t) = true :=
      decide_eq_true ⟨hc.1.symm, hc.2.symm⟩
    simp [hd]
  · rw [if_neg hc]
    have hd : decide (j = i ∧ t0 = t) = false :=
      decide_eq_false (fun hh => hc ⟨hh.1.symm, hh.2.symm⟩)
    simp [hd]

theorem countersAt_withEvent (f : raft_fixture) (e : raft_fixture_event)
    (i t : Nat) : countersAt { f with event := e } i t = countersAt f i t :=
  rfl

theorem countersAt_withTime (f : raft_fixture) (t0 i t : Nat) :
    countersAt { f with time := t0 } i t = countersAt f i t := rfl

theorem countersAt_setRaft (f : raft_fixture) (j : Nat) (r : RaftState)
    (i t : Nat) : countersAt (setRaft f j r) i t = countersAt f i t := by
  unfold countersAt raft_fixture_n_send raft_fixture_n_recv
  rw [ioAt_setRaft]

theorem countersAt_updateIo_pres (f : raft_fixture) (j : Nat)
    (g : IoState → IoState)
    (hg : ∀ io, (g io).nSend = io.nSend ∧ (g io).nRecv = io.nRecv)
    (i t : Nat) : countersAt (updateIo f j g) i t = countersAt f i t := by
  unfold countersAt raft_fixture_n_send raft_fixture_n_recv
  rw [ioAt_updateIo]
  split
  · rename_i hc
    rw [(hg (ioAt f j)).1, (hg (ioAt f j)).2, hc.1]
  · rfl

theorem countersAt_pushTransit (f : raft_fixture) (j : Nat)
    (e : TransitEntry) (i t : Nat) :
    countersAt (pushTransit f j e) i t = countersAt f i t := by
  unfold pushTransit
  apply countersAt_updateIo_pres
  intro io
  exact ⟨rfl, rfl⟩

theorem countersAt_bumpSend (f : raft_fixture) (j t0 : Nat) (i t : Nat) :
    countersAt
        (updateIo f j (fun io =>
          { io with nSend := bumpCounter io.nSend t0 })) i t =
      ((countersAt f i t).1 +
        (if i = j ∧ t = t0 ∧ j < f.servers.length then 1 else 0),
       (countersAt f i t).2) := by
  unfold countersAt raft_fixture_n_send raft_fixture_n_recv
  rw [ioAt_updateIo]
  by_cases hj : j < f.servers.length
  · by_cases hc : i = j ∧ t = t0
    · rw [if_pos (show j = i ∧ j < f.servers.length from ⟨hc.1.symm, hj⟩),
        if_pos (show i = j ∧ t = t0 ∧ j < f.servers.length from
          ⟨hc.1, hc.2, hj⟩)]
      simp only
      unfold bumpCounter
      rw [if_pos hc.2, hc.1, hc.2]
    · by_cases hij : j = i
      · rw [if_pos (show j = i ∧ j < f.servers.length from ⟨hij, hj⟩),
          if_neg (show ¬ (i = j ∧ t = t0 ∧ j < f.servers.length) from
            fun hh => hc ⟨hh.1, hh.2.1⟩)]
        simp only
        unfold bumpCounter
        have ht : ¬ t = t0 := fun ht => hc ⟨hij.symm, ht⟩
        rw [if_neg ht, hij]
        simp
      · rw [if_neg (show ¬ (j = i ∧ j < f.servers.length) from
            fun hh => hij hh.1),
          if_neg (show ¬ (i = j ∧ t = t0 ∧ j < f.servers.length) from
            fun hh => hij hh.1.symm)]
        simp
  · rw [if_neg (show ¬ (j = i ∧ j < f.servers.length) from fun hh => hj hh.2),
      if_neg (show ¬ (i = j ∧ t = t0 ∧ j < f.servers.length) from
        fun hh => hj hh.2.2)]
    simp

theorem countersAt_bumpRecv (f : raft_fixture) (j t0 : Nat) (i t : Nat) :
    countersAt
        (updateIo f j (fun io =>
          { io with nRecv := bumpCounter io.nRecv t0 })) i t =
      ((countersAt f i t).1,
       (countersAt f i t).2 +
        (if i = j ∧ t = t0 ∧ j < f.servers.length then 1 else 0)) := by
  unfold countersAt raft_fixture_n_send raft_fixture_n_recv
  rw [ioAt_updateIo]
  by_cases hj : j < f.servers.length
  · by_cases hc : i = j ∧ t = t0
    · rw [if_pos (show j = i ∧ j < f.servers.length from ⟨hc.1.symm, hj⟩),
        if_pos (show i = j ∧ t = t0 ∧ j < f.servers.length from
          ⟨hc.1, hc.2, hj⟩)]
      simp only
      unfold bumpCounter
      rw [if_pos hc.2, hc.1, hc.2]
    · by_cases hij : j = i
      · rw [if_pos (show j = i ∧ j < f.servers.length from ⟨hij, hj⟩),
          if_neg (show ¬ (i = j ∧ t = t0 ∧ j < f.servers.length) from
            fun hh => hc ⟨hh.1, hh.2.1⟩)]
        simp only
        unfold bumpCounter
        have ht : ¬ t = t0 := fun ht => hc ⟨hij.symm, ht⟩
        rw [if_neg ht, hij]
        simp
      · rw [if_neg (show ¬ (j = i ∧ j < f.servers.length) from
            fun hh => hij hh.1),
          if_neg (show ¬ (i = j ∧ t = t0 ∧ j < f.servers.length) from
            fun hh => hij hh.1.symm)]
        simp
  · rw [if_neg (show ¬ (j = i ∧ j < f.servers.length) from fun hh => hj hh.2),
      if_neg (show ¬ (i = j ∧ t = t0 ∧ j < f.servers.length) from
        fun hh => hj hh.2.2)]
    simp

theorem countersAt_ioSubmitAppend (f : raft_fixture) (j : Nat)
    (es : List RaftEntry) (i t : Nat) :
    countersAt (ioSubmitAppend f j es) i t = countersAt f i t := by
  unfold ioSubmitAppend
  apply countersAt_updateIo_pres
  intro io
  refine ⟨?_, ?_⟩ <;> (split <;> first | rfl | (split <;> rfl))

theorem countersAt_processRequest (f : raft_fixture) (j : Nat)
    (r : IoRequest) (i t : Nat) :
    countersAt (processRequest f j r) i t = countersAt f i t := by
  cases r with
  | append es => exact countersAt_ioSubmitAppend f j es i t
  | send destId msg =>
    show countersAt (ioSubmitSend f j destId msg).2 i t = countersAt f i t
    unfold ioSubmitSend
    cases serverIndexById f destId with
    | none => rfl
    | some k =>
      simp only
      split
      · rfl
      · split
        · rfl
        · exact countersAt_updateIo_pres { f with nextMsgId := f.nextMsgId + 1 }
            j
            (fun io =>
              { io with sendQueue := io.sendQueue ++
                  [{ msgId := f.nextMsgId, dest := k, msg := msg,
                     completionTime := f.time + io.networkLatency / 2 }] })
            (fun io => ⟨rfl, rfl⟩) i t

theorem countersAt_processRequests (f : raft_fixture) (j : Nat)
    (rs : List IoRequest) (i t : Nat) :
    countersAt (processRequests f j rs) i t = countersAt f i t := by
  induction rs generalizing f with
  | nil => rfl
  | cons r rs ih =>
    show countersAt (processRequests (processRequest f j r) j rs) i t = _
    rw [ih, countersAt_processRequest]

theorem foldl_some_invariant {α β : Type} (P : β → Prop)
    (g : Option β → α → Option β) :
    ∀ (l : List α) (init : Option β),
      (∀ b, init = some b → P b) →
      (∀ acc a, (∀ b, acc = some b → P b) → a ∈ l →
        ∀ b, g acc a = some b → P b) →
      ∀ b, l.foldl g init = some b → P b := by
  intro l
  induction l with
  | nil => intro init hinit _ b hb; exact hinit b hb
  | cons a l ih =>
    intro init hinit hg b hb
    simp only [List.foldl_cons] at hb
    exact ih (g init a)
      (hg init a hinit (List.mem_cons_self a l))
      (fun acc a' hacc ha' => hg acc a' hacc (List.mem_cons_of_mem a ha'))
      b hb

theorem selectSendCompletion_spec (f : raft_fixture) (i p : Nat)
    (e : SendEntry) (h : selectSendCompletion f = some (i, p, e)) :
    i < f.servers.length ∧ sendCandidate f i = some (p, e) := by
  unfold selectSendCompletion at h
  refine foldl_some_invariant
    (fun b => b.1 < f.servers.length ∧
      sendCandidate f b.1 = some (b.2.1, b.2.2))
    _ (List.range f.servers.length) none (by simp) ?_ (i, p, e) h
  intro acc a hacc ha b hb
  cases hc : sendCandidate f a with
  | none => rw [hc] at hb; exact hacc b hb
  | some pe =>
    rw [hc] at hb
    obtain ⟨p2, e2⟩ := pe
    cases acc with
    | none =>
      simp only [Option.some.injEq] at hb
      rw [← hb]
      exact ⟨List.mem_range.mp ha, by rw [hc]⟩
    | some b0 =>
      obtain ⟨j0, q0, e3⟩ := b0
      simp only at hb
      split at hb
      · simp only [Option.some.injEq] at hb
        rw [← hb]
        exact ⟨List.mem_range.mp ha, by rw [hc]⟩
      · exact hacc b hb

theorem mem_foldr_append {α : Type} (g : Nat → List α) (l : List Nat)
    (c : α) :
    (c ∈ l.foldr (fun i acc => g i ++ acc) []) ↔ ∃ i ∈ l, c ∈ g i := by
  induction l with
  | nil => simp
  | cons a l ih =>
    simp only [List.foldr_cons, List.mem_append, ih, List.mem_cons]
    constructor
    · rintro (h | ⟨i, hi, hc⟩)
      · exact ⟨a, Or.inl rfl, h⟩
      · exact ⟨i, Or.inr hi, hc⟩
    · rintro ⟨i, hi | hi, hc⟩
      · exact Or.inl (hi ▸ hc)
      · exact Or.inr ⟨i, hi, hc⟩

theorem serverCandidates_fst (f : raft_fixture) (i : Nat)
    (c : Nat × EvKind × Nat) (h : c ∈ serverCandidates f i) : c.1 = i := by
  unfold serverCandidates at h
  cases hx : f.servers[i]? with
  | none => rw [hx] at h; exact absurd h (List.not_mem_nil c)
  | some s =>
    rw [hx] at h
    simp only at h
    split at h
    · cases hm1 : minKeyOf (fun a => a.completionTime) s.io.appendQueue with
      | none =>
        rw [hm1] at h
        cases hm2 : minKeyOf (fun m => m.deliveryTime) s.io.transitQueue with
        | none =>
          rw [hm2] at h
          simp only [List.append_nil] at h
          rw [List.mem_singleton.mp h]
        | some t2 =>
          rw [hm2] at h
          rcases List.mem_append.mp h with h1 | h2
          · rcases List.mem_append.mp h1 with h3 | h4
            · rw [List.mem_singleton.mp h3]
            · exact absurd h4 (List.not_mem_nil c)
          · rw [List.mem_singleton.mp h2]
      | some t1 =>
        rw [hm1] at h
        cases hm2 : minKeyOf (fun m => m.deliveryTime) s.io.transitQueue with
        | none =>
          rw [hm2] at h
          rcases List.mem_append.mp h with h1 | h2
          · rcases List.mem_append.mp h1 with h3 | h4
            · rw [List.mem_singleton.mp h3]
            · rw [List.mem_singleton.mp h4]
          · exact absurd h2 (List.not_mem_nil c)
        | some t2 =>
          rw [hm2] at h
          rcases List.mem_append.mp h with h1 | h2
          · rcases List.mem_append.mp h1 with h3 | h4
            · rw [List.mem_singleton.mp h3]
            · rw [List.mem_singleton.mp h4]
          · rw [List.mem_singleton.mp h2]
    · exact absurd h (List.not_mem_nil c)

theorem mem_phase2Candidates (f : raft_fixture) (c : Nat × EvKind × Nat)
    (h : c ∈ phase2Candidates f) :
    c.1 < f.servers.length ∧ c ∈ serverCandidates f c.1 := by
  unfold phase2Candidates at h
  rw [mem_foldr_append] at h
  obtain ⟨i, hi, hc⟩ := h
  have hfst : c.1 = i := serverCandidates_fst f i c hc
  rw [hfst]
  exact ⟨List.mem_range.mp hi, hfst ▸ hc⟩

theorem firstMinIdxAux_mem {α : Type} (key : α → Nat) :
    ∀ (l : List α) (n p : Nat) (x : α),
      firstMinIdxAux key l n = some (p, x) → x ∈ l := by
  intro l
  induction l with
  | nil => intro n p x h; exact absurd h (by simp [firstMinIdxAux])
  | cons a l ih =>
    intro n p x h
    unfold firstMinIdxAux at h
    cases hr : firstMinIdxAux key l (n + 1) with
    | none =>
      rw [hr] at h
      simp only [Option.some.injEq, Prod.mk.injEq] at h
      rw [← h.2]
      exact List.mem_cons_self a l
    | some jy =>
      obtain ⟨j, y⟩ := jy
      rw [hr] at h
      simp only at h
      split at h
      · simp only [Option.some.injEq, Prod.mk.injEq] at h
        rw [← h.2]
        exact List.mem_cons_self a l
      · simp only [Option.some.injEq, Prod.mk.injEq] at h
        rw [← h.2]
        exact List.mem_cons_of_mem a (ih (n + 1) j y hr)

theorem firstMinIdx_mem {α : Type} (key : α → Nat) (l : List α) (p : Nat)
    (x : α) (h : firstMinIdx key l = some (p, x)) : x ∈ l :=
  firstMinIdxAux_mem key l 0 p x h

theorem countSendDone_append (l1 l2 : List MicroEvent) (i t : Nat) :
    countSendDone (l1 ++ l2) i t =
      countSendDone l1 i t + countSendDone l2 i t :=
  List.countP_append _ l1 l2

theorem countRecv_append (l1 l2 : List MicroEvent) (i t : Nat) :
    countRecv (l1 ++ l2) i t = countRecv l1 i t + countRecv l2 i t :=
  List.countP_append _ l1 l2

theorem servers_length_updateIo (f : raft_fixture) (j : Nat)
    (g : IoState → IoState) :
    (updateIo f j g).servers.length = f.servers.length :=
  congrArg (fun q => q.2.1) (Shape_updateIo f j g)

theorem countersAt_firePhase1 (B : Behavior) (f : raft_fixture) (i p : Nat)
    (e : SendEntry) (hi : i < f.servers.length) (i' t : Nat) :
    countersAt (firePhase1 B f i p e).1 i' t =
      ((countersAt f i' t).1 + (if i' = i ∧ t = e.msg.type then 1 else 0),
       (countersAt f i' t).2) := by
  unfold firePhase1
  simp only
  rw [countersAt_withEvent, countersAt_processRequests,
    apply_ite (fun g => countersAt g i' t), countersAt_pushTransit, ite_self,
    countersAt_setRaft, countersAt_bumpSend, countersAt_withTime,
    countersAt_updateIo_pres _ _
      (fun io => { io with sendQueue := io.sendQueue.eraseIdx p })
      (fun io => ⟨rfl, rfl⟩)]
  have hlen :
      ({ (updateIo f i (fun io =>
            { io with sendQueue := io.sendQueue.eraseIdx p })) with
          time := e.completionTime } : raft_fixture).servers.length =
        f.servers.length := by
    show (updateIo f i (fun io =>
        { io with sendQueue := io.sendQueue.eraseIdx p })).servers.length =
      f.servers.length
    exact servers_length_updateIo ..
  rw [hlen]
  simp only [hi, and_true]

theorem countersAt_dispatchTick (B : Behavior) (f : raft_fixture)
    (j i t : Nat) :
    countersAt (dispatchTick B f j).1 i t = countersAt f i t := by
  unfold dispatchTick
  simp only
  rw [countersAt_withEvent, countersAt_processRequests,
    countersAt_updateIo_pres _ _
      (fun io => { io with nextExpiry := io.nextExpiry + io.tickPeriod })
      (fun io => ⟨rfl, rfl⟩),
    countersAt_setRaft]

theorem countersAt_dispatchDisk (B : Behavior) (f : raft_fixture)
    (j i t : Nat) :
    countersAt (dispatchDisk B f j).1 i t = countersAt f i t := by
  unfold dispatchDisk
  cases hm : firstMinIdx (fun a => a.completionTime) (ioAt f j).appendQueue
    with
  | none => rw [countersAt_withEvent]
  | some pa =>
    obtain ⟨p, a⟩ := pa
    simp only
    rw [countersAt_withEvent, countersAt_processRequests, countersAt_setRaft,
      apply_ite (fun g => countersAt g i t),
      countersAt_updateIo_pres _ _
        (fun io => { io with log := io.log ++ a.entries })
        (fun io => ⟨rfl, rfl⟩), ite_self,
      countersAt_updateIo_pres _ _
        (fun io => { io with appendQueue := io.appendQueue.eraseIdx p })
        (fun io => ⟨rfl, rfl⟩)]

theorem countersAt_dispatchNet (B : Behavior) (f : raft_fixture) (j : Nat)
    (hj : j < f.servers.length) (i t : Nat) :
    countersAt (dispatchNet B f j).1 i t =
      ((countersAt f i t).1 + countSendDone (dispatchNet B f j).2 i t,
       (countersAt f i t).2 + countRecv (dispatchNet B f j).2 i t) := by
  unfold dispatchNet
  cases hm : firstMinIdx (fun m => m.deliveryTime) (ioAt f j).transitQueue
    with
  | none =>
    simp only
    rw [countersAt_withEvent]
    simp [countSendDone, countRecv]
  | some pm =>
    obtain ⟨p, m⟩ := pm
    simp only
    split
    · rw [countersAt_withEvent, countersAt_processRequests,
        countersAt_setRaft, countersAt_bumpRecv,
        countersAt_updateIo_pres _ _
          (fun io => { io with transitQueue := io.transitQueue.eraseIdx p })
          (fun io => ⟨rfl, rfl⟩)]
      rw [countRecv_recv]
      have hlen : (updateIo f j (fun io =>
          { io with transitQueue :=
              io.transitQueue.eraseIdx p })).servers.length =
            f.servers.length :=
        servers_length_updateIo ..
      rw [hlen]
      simp only [hj, and_true]
      have hz : countSendDone [MicroEvent.recv j m.msgId m.msg.type] i t = 0 :=
        rfl
      rw [hz]
      simp
    · rw [countersAt_withEvent,
        countersAt_updateIo_pres _ _
          (fun io => { io with transitQueue := io.transitQueue.eraseIdx p })
          (fun io => ⟨rfl, rfl⟩)]
      have hz1 : countSendDone [MicroEvent.dropDelivery j m.msgId] i t = 0 :=
        rfl
      have hz2 : countRecv [MicroEvent.dropDelivery j m.msgId] i t = 0 := rfl
      rw [hz1, hz2]
      simp

theorem trace_firePhase1 (B : Behavior) (f : raft_fixture) (i p : Nat)
    (e : SendEntry) :
    (firePhase1 B f i p e).2 =
      [MicroEvent.sendDone i e.msgId e.msg.type] := rfl

theorem countersAt_stepDispatch (B : Behavior) (f : raft_fixture)
    (i t : Nat) :
    countersAt (stepDispatch B f).1 i t =
      ((countersAt f i t).1 + countSendDone (stepDispatch B f).2 i t,
       (countersAt f i t).2 + countRecv (stepDispatch B f).2 i t) := by
  unfold stepDispatch
  cases hs : selectSendCompletion f with
  | some ipe =>
    obtain ⟨i0, p0, e0⟩ := ipe
    simp only
    rw [countersAt_firePhase1 B f i0 p0 e0
      (selectSendCompletion_spec f i0 p0 e0 hs).1]
    rw [trace_firePhase1, countSendDone_sendDone]
    have hz : countRecv [MicroEvent.sendDone i0 e0.msgId e0.msg.type] i t =
        0 := rfl
    rw [hz]
    simp
  | none =>
    simp only
    cases hp : phase2Select f with
    | none => simp [countSendDone, countRecv]
    | some c =>
      obtain ⟨i0, k, T⟩ := c
      have hi0 : i0 < f.servers.length := by
        have hmem := (pickMin_spec _ _ hp).1
        exact (mem_phase2Candidates f _ hmem).1
      simp only
      cases k with
      | tick =>
        have hde : dispatchEvent B { f with time := T } (i0, EvKind.tick, T) =
            dispatchTick B { f with time := T } i0 := rfl
        rw [hde, countersAt_dispatchTick, countersAt_withTime]
        have hz1 : countSendDone (dispatchTick B { f with time := T } i0).2
            i t = 0 := rfl
        have hz2 : countRecv (dispatchTick B { f with time := T } i0).2
            i t = 0 := rfl
        rw [hz1, hz2]
        simp
      | disk =>
        have hde : dispatchEvent B { f with time := T } (i0, EvKind.disk, T) =
            dispatchDisk B { f with time := T } i0 := rfl
        rw [hde, countersAt_dispatchDisk, countersAt_withTime]
        have hz1 : countSendDone (dispatchDisk B { f with time := T } i0).2
            i t = 0 := by
          unfold dispatchDisk
          cases firstMinIdx (fun a => a.completionTime)
              (ioAt { f with time := T } i0).appendQueue with
          | none => rfl
          | some pa => obtain ⟨p, a⟩ := pa; rfl
        have hz2 : countRecv (dispatchDisk B { f with time := T } i0).2
            i t = 0 := by
          unfold dispatchDisk
          cases firstMinIdx (fun a => a.completionTime)
              (ioAt { f with time := T } i0).appendQueue with
          | none => rfl
          | some pa => obtain ⟨p, a⟩ := pa; rfl
        rw [hz1, hz2]
        simp
      | net =>
        have hde : dispatchEvent B { f with time := T } (i0, EvKind.net, T) =
            dispatchNet B { f with time := T } i0 := rfl
        rw [hde, countersAt_dispatchNet B { f with time := T } i0 hi0,
          countersAt_withTime]

theorem countersAt_eq_of_servers (f g : raft_fixture)
    (h : f.servers = g.servers) (i t : Nat) :
    countersAt f i t = countersAt g i t := by
  unfold countersAt raft_fixture_n_send raft_fixture_n_recv ioAt
  rw [h]

theorem step_counters (B : Behavior) (f f1 : raft_fixture)
    (tr : List MicroEvent) (h : raft_fixture_step B f = .ok f1 tr)
    (i t : Nat) :
    countersAt f1 i t =
      ((countersAt f i t).1 + countSendDone tr i t,
       (countersAt f i t).2 + countRecv tr i t) := by
  unfold raft_fixture_step at h
  cases hc : checkAndSnapshot (stepDispatch B f).1 with
  | none => rw [hc] at h; exact absurd h (by simp)
  | some g =>
    rw [hc] at h
    simp only [StepResult.ok.injEq] at h
    obtain ⟨h1, h2⟩ := h
    rw [← h1, ← h2]
    rw [countersAt_eq_of_servers g (stepDispatch B f).1
      (n_checkAndSnapshot _ _ hc).2]
    exact countersAt_stepDispatch B f i t

theorem stepsTrace_counters (B : Behavior) :
    ∀ (k : Nat) (f f' : raft_fixture) (trs : List (List MicroEvent)),
      stepsTrace B k f = some (f', trs) → ∀ i t,
      countersAt f' i t =
        ((countersAt f i t).1 + countSendDone trs.flatten i t,
         (countersAt f i t).2 + countRecv trs.flatten i t) := by
  intro k
  induction k with
  | zero =>
    intro f f' trs h i t
    simp only [stepsTrace, Option.some.injEq, Prod.mk.injEq] at h
    obtain ⟨h1, h2⟩ := h
    rw [← h1, ← h2]
    simp [countSendDone, countRecv]
  | succ k ih =>
    intro f f' trs h i t
    simp only [stepsTrace] at h
    cases hstep : raft_fixture_step B f with
    | fatal => rw [hstep] at h; exact absurd h (by simp)
    | ok f1 tr =>
      rw [hstep] at h
      simp only at h
      cases hrest : stepsTrace B k f1 with
      | none => rw [hrest] at h; exact absurd h (by simp)
      | some p2 =>
        obtain ⟨f2, trs2⟩ := p2
        rw [hrest] at h
        simp only [Option.some.injEq, Prod.mk.injEq] at h
        obtain ⟨h1, h2⟩ := h
        rw [← h1, ← h2]
        have hstepc := step_counters B f f1 tr hstep i t
        have hrec := ih f1 f2 trs2 hrest i t
        rw [hrec, hstepc]
        rw [List.flatten_cons, countSendDone_append, countRecv_append]
        refine Prod.ext ?_ ?_ <;> simp <;> omega

/-- C8: the `n_send` counter of a server and message type counts exactly the
send callbacks that fired successfully during a run, and the `n_recv`
counter counts exactly the messages actually delivered to that server
(silent drops are never counted): over any non-aborting run of the step
engine, the counters grow by exactly the number of sendDone, respectively
recv, events of the fired trace. -/
theorem n_send_n_recv_exact (B : Behavior) (k : Nat) (f f' : raft_fixture)
    (trs : List (List MicroEvent)) (h : stepsTrace B k f = some (f', trs))
    (i t : Nat) :
    raft_fixture_n_send f' i t =
        raft_fixture_n_send f i t + countSendDone trs.flatten i t ∧
      raft_fixture_n_recv f' i t =
        raft_fixture_n_recv f i t + countRecv trs.flatten i t := by
  have hc := stepsTrace_counters B k f f' trs h i t
  exact ⟨congrArg Prod.fst hc, congrArg Prod.snd hc⟩

/-- A behavior whose tick callbacks submit one message of type 3 to the
server with id 2; used to exercise the counter bookkeeping. -/
def sendingBehavior : Behavior :=
  { onTick := fun _ r => (r, [IoRequest.send 2 { type := 3, payload := 0 }]),
    onRecv := fun _ _ _ r => (r, []),
    onSendDone := fun _ r => (r, []),
    onAppendDone := fun _ _ r => (r, []) }

/-- Extract the result of a non-aborting multi-step run. -/
def runOk (r : Option (raft_fixture × List (List MicroEvent))) :
    raft_fixture × List (List MicroEvent) :=
  match r with
  | some pr => pr
  | none => (blankFixture, [])

theorem n_send_n_recv_exact_witness :
    raft_fixture_n_send (runOk (stepsTrace sendingBehavior 3 fixture3)).1
          0 3 =
        raft_fixture_n_send fixture3 0 3 +
          countSendDone
            (runOk (stepsTrace sendingBehavior 3 fixture3)).2.flatten 0 3 ∧
      raft_fixture_n_recv (runOk (stepsTrace sendingBehavior 3 fixture3)).1
          0 3 =
        raft_fixture_n_recv fixture3 0 3 +
          countRecv
            (runOk (stepsTrace sendingBehavior 3 fixture3)).2.flatten 0 3 :=
  n_send_n_recv_exact sendingBehavior 3 fixture3 _ _ rfl 0 3

/-- The ghost message ids of all in-flight messages of a server array. -/
def transitIdsList : List raft_fixture_server → List Nat
  | [] => []
  | s :: ss => s.io.transitQueue.map (fun e => e.msgId) ++ transitIdsList ss

/-- The ghost message ids of all in-flight messages of the fixture. -/
def transitIds (f : raft_fixture) : List Nat := transitIdsList f.servers

theorem mem_transitIdsList_set (ss : List raft_fixture_server) (j : Nat)
    (s' : raft_fixture_server) (m : Nat)
    (hm : m ∈ transitIdsList (ss.set j s')) :
    m ∈ transitIdsList ss ∨
      m ∈ s'.io.transitQueue.map (fun e => e.msgId) := by
  induction ss generalizing j with
  | nil => exact absurd hm (by simp [transitIdsList])
  | cons a ss ih =>
    cases j with
    | zero =>
      simp only [List.set] at hm
      unfold transitIdsList at hm
      rcases List.mem_append.mp hm with h1 | h2
      · exact Or.inr h1
      · exact Or.inl
          (by unfold transitIdsList; exact List.mem_append_right _ h2)
    | succ j =>
      simp only [List.set] at hm
      unfold transitIdsList at hm
      rcases List.mem_append.mp hm with h1 | h2
      · exact Or.inl
          (by unfold transitIdsList; exact List.mem_append_left _ h1)
      · rcases ih j h2 with h3 | h4
        · exact Or.inl
            (by unfold transitIdsList; exact List.mem_append_right _ h3)
        · exact Or.inr h4

theorem transitIdsList_set_eq (ss : List raft_fixture_server) (j : Nat)
    (s s' : raft_fixture_server) (hs : ss[j]? = some s)
    (hq : s'.io.transitQueue = s.io.transitQueue) :
    transitIdsList (ss.set j s') = transitIdsList ss := by
  induction ss generalizing j with
  | nil => exact absurd hs (by simp)
  | cons a ss ih =>
    cases j with
    | zero =>
      rw [List.getElem?_cons_zero] at hs
      simp only [Option.some.injEq] at hs
      simp only [List.set]
      unfold transitIdsList
      rw [hq, hs]
    | succ j =>
      rw [List.getElem?_cons_succ] at hs
      simp only [List.set]
      unfold transitIdsList
      rw [ih j hs]

theorem transitIds_updateIo_pres (f : raft_fixture) (j : Nat)
    (g : IoState → IoState)
    (hg : ∀ io, (g io).transitQueue = io.transitQueue) :
    transitIds (updateIo f j g) = transitIds f := by
  unfold updateIo
  cases hs : f.servers[j]? with
  | none => rfl
  | some s =>
    show transitIdsList (f.servers.set j { s with io := g s.io }) = _
    exact transitIdsList_set_eq f.servers j s _ hs (hg s.io)

theorem transitIds_withEvent (f : raft_fixture) (e : raft_fixture_event) :
    transitIds { f with event := e } = transitIds f := rfl

theorem transitIds_withTime (f : raft_fixture) (t0 : Nat) :
    transitIds { f with time := t0 } = transitIds f := rfl

theorem transitIds_setRaft (f : raft_fixture) (j : Nat) (r : RaftState) :
    transitIds (setRaft f j r) = transitIds f := by
  unfold setRaft
  cases hs : f.servers[j]? with
  | none => rfl
  | some s =>
    show transitIdsList (f.servers.set j { s with raft := r }) = _
    exact transitIdsList_set_eq f.servers j s _ hs rfl

theorem transitIds_eraseSend (f : raft_fixture) (j p : Nat) :
    transitIds (updateIo f j (fun io =>
      { io with sendQueue := io.sendQueue.eraseIdx p })) = transitIds f :=
  transitIds_updateIo_pres f j _ (fun io => rfl)

theorem transitIds_bumpSend (f : raft_fixture) (j t0 : Nat) :
    transitIds (updateIo f j (fun io =>
      { io with nSend := bumpCounter io.nSend t0 })) = transitIds f :=
  transitIds_updateIo_pres f j _ (fun io => rfl)

theorem transitIds_bumpRecv (f : raft_fixture) (j t0 : Nat) :
    transitIds (updateIo f j (fun io =>
      { io with nRecv := bumpCounter io.nRecv t0 })) = transitIds f :=
  transitIds_updateIo_pres f j _ (fun io => rfl)

theorem transitIds_expiry (f : raft_fixture) (j : Nat) :
    transitIds (updateIo f j (fun io =>
      { io with nextExpiry := io.nextExpiry + io.tickPeriod })) =
      transitIds f :=
  transitIds_updateIo_pres f j _ (fun io => rfl)

theorem transitIds_appendLog (f : raft_fixture) (j : Nat)
    (es : List RaftEntry) :
    transitIds (updateIo f j (fun io => { io with log := io.log ++ es })) =
      transitIds f :=
  transitIds_updateIo_pres f j _ (fun io => rfl)

theorem transitIds_eraseAppend (f : raft_fixture) (j p : Nat) :
    transitIds (updateIo f j (fun io =>
      { io with appendQueue := io.appendQueue.eraseIdx p })) =
      transitIds f :=
  transitIds_updateIo_pres f j _ (fun io => rfl)

theorem transitIds_processRequest (f : raft_fixture) (j : Nat)
    (r : IoRequest) : transitIds (processRequest f j r) = transitIds f := by
  cases r with
  | append es =>
    show transitIds (ioSubmitAppend f j es) = _
    unfold ioSubmitAppend
    apply transitIds_updateIo_pres
    intro io
    split
    · rfl
    · split <;> rfl
  | send destId msg =>
    show transitIds (ioSubmitSend f j destId msg).2 = _
    unfold ioSubmitSend
    cases serverIndexById f destId with
    | none => rfl
    | some k2 =>
      simp only
      split
      · rfl
      · split
        · rfl
        · exact transitIds_updateIo_pres
            { f with nextMsgId := f.nextMsgId + 1 } j
            (fun io =>
              { io with sendQueue := io.sendQueue ++
                  [{ msgId := f.nextMsgId, dest := k2, msg := msg,
                     completionTime := f.time + io.networkLatency / 2 }] })
            (fun io => rfl)

theorem transitIds_processRequests (f : raft_fixture) (j : Nat)
    (rs : List IoRequest) :
    transitIds (processRequests f j rs) = transitIds f := by
  induction rs generalizing f with
  | nil => rfl
  | cons r rs ih =>
    show transitIds (processRequests (processRequest f j r) j rs) = _
    rw [ih, transitIds_processRequest]

theorem mem_transitIdsList_queue (ss : List raft_fixture_server) (j : Nat)
    (s : raft_fixture_server) (hs : ss[j]? = some s) (e : TransitEntry)
    (he : e ∈ s.io.transitQueue) : e.msgId ∈ transitIdsList ss := by
  induction ss generalizing j with
  | nil => exact absurd hs (by simp)
  | cons a ss ih =>
    cases j with
    | zero =>
      rw [List.getElem?_cons_zero] at hs
      simp only [Option.some.injEq] at hs
      unfold transitIdsList
      rw [hs]
      exact List.mem_append_left _ (List.mem_map_of_mem _ he)
    | succ j =>
      rw [List.getElem?_cons_succ] at hs
      unfold transitIdsList
      exact List.mem_append_right _ (ih j hs)

theorem mem_transitIds_pushTransit (f : raft_fixture) (j : Nat)
    (e : TransitEntry) (m : Nat)
    (hm : m ∈ transitIds (pushTransit f j e)) :
    m ∈ transitIds f ∨ m = e.msgId := by
  unfold pushTransit updateIo at hm
  cases hs : f.servers[j]? with
  | none => rw [hs] at hm; exact Or.inl hm
  | some s =>
    rw [hs] at hm
    rcases mem_transitIdsList_set f.servers j _ m hm with h1 | h2
    · exact Or.inl h1
    · simp only at h2
      rw [List.map_append] at h2
      rcases List.mem_append.mp h2 with h3 | h4
      · obtain ⟨e2, he2, hme⟩ := List.mem_map.mp h3
        refine Or.inl ?_
        rw [← hme]
        exact mem_transitIdsList_queue f.servers j s hs e2 he2
      · simp only [List.map_cons, List.map_nil, List.mem_singleton] at h4
        exact Or.inr h4

theorem mem_transitIds_erase (f : raft_fixture) (j p : Nat) (m : Nat)
    (hm : m ∈ transitIds (updateIo f j (fun io =>
      { io with transitQueue := io.transitQueue.eraseIdx p }))) :
    m ∈ transitIds f := by
  unfold updateIo at hm
  cases hs : f.servers[j]? with
  | none => rw [hs] at hm; exact hm
  | some s =>
    rw [hs] at hm
    rcases mem_transitIdsList_set f.servers j _ m hm with h1 | h2
    · exact h1
    · simp only at h2
      obtain ⟨e2, he2, hme⟩ := List.mem_map.mp h2
      have he3 : e2 ∈ s.io.transitQueue :=
        (List.eraseIdx_sublist s.io.transitQueue p).mem he2
      rw [← hme]
      exact mem_transitIdsList_queue f.servers j s hs e2 he3

theorem transitIds_eq_of_servers (f g : raft_fixture)
    (h : f.servers = g.servers) : transitIds f = transitIds g := by
  unfold transitIds
  rw [h]

theorem step_trace_eq (B : Behavior) (f f1 : raft_fixture)
    (tr : List MicroEvent) (h : raft_fixture_step B f = .ok f1 tr) :
    tr = (stepDispatch B f).2 ∧ f1.servers = (stepDispatch B f).1.servers := by
  unfold raft_fixture_step at h
  cases hc : checkAndSnapshot (stepDispatch B f).1 with
  | none => rw [hc] at h; exact absurd h (by simp)
  | some g =>
    rw [hc] at h
    simp only [StepResult.ok.injEq] at h
    obtain ⟨h1, h2⟩ := h
    refine ⟨h2.symm, ?_⟩
    rw [← h1]
    exact (n_checkAndSnapshot _ _ hc).2

theorem stepDispatch_phase1 (B : Behavior) (f : raft_fixture) (i p : Nat)
    (e : SendEntry) (hs : selectSendCompletion f = some (i, p, e)) :
    stepDispatch B f = firePhase1 B f i p e := by
  unfold stepDispatch
  rw [hs]

theorem stepDispatch_phase2 (B : Behavior) (f : raft_fixture)
    (c : Nat × EvKind × Nat) (hs : selectSendCompletion f = none)
    (hp : phase2Select f = some c) :
    stepDispatch B f = dispatchEvent B { f with time := c.2.2 } c := by
  unfold stepDispatch
  rw [hs, hp]

theorem stepDispatch_idle (B : Behavior) (f : raft_fixture)
    (hs : selectSendCompletion f = none) (hp : phase2Select f = none) :
    stepDispatch B f = (f, []) := by
  unfold stepDispatch
  rw [hs, hp]

/-- A message delivered by a step was in some transit queue at the start of
the step. -/
theorem step_recv_transit (B : Behavior) (f f1 : raft_fixture)
    (tr : List MicroEvent) (h : raft_fixture_step B f = .ok f1 tr)
    (i m t : Nat) (hm : MicroEvent.recv i m t ∈ tr) : m ∈ transitIds f := by
  rw [(step_trace_eq B f f1 tr h).1] at hm
  cases hs : selectSendCompletion f with
  | some ipe =>
    obtain ⟨i0, p0, e0⟩ := ipe
    rw [stepDispatch_phase1 B f i0 p0 e0 hs, trace_firePhase1] at hm
    simp at hm
  | none =>
    cases hp : phase2Select f with
    | none =>
      rw [stepDispatch_idle B f hs hp] at hm
      exact absurd hm (List.not_mem_nil _)
    | some c =>
      obtain ⟨i0, k, T⟩ := c
      rw [stepDispatch_phase2 B f (i0, k, T) hs hp] at hm
      cases k with
      | tick =>
        have hde :
            (dispatchEvent B { f with time := (i0, EvKind.tick, T).2.2 }
              (i0, EvKind.tick, T)).2 = [MicroEvent.tick i0] := rfl
        rw [hde] at hm
        simp at hm
      | disk =>
        have hde : dispatchEvent B { f with time := (i0, EvKind.disk, T).2.2 }
            (i0, EvKind.disk, T) = dispatchDisk B { f with time := T } i0 :=
          rfl
        rw [hde] at hm
        unfold dispatchDisk at hm
        cases hq : firstMinIdx (fun a => a.completionTime)
            (ioAt { f with time := T } i0).appendQueue with
        | none => rw [hq] at hm; exact absurd hm (List.not_mem_nil _)
        | some pa =>
          obtain ⟨p, a⟩ := pa
          rw [hq] at hm
          simp at hm
      | net =>
        have hde : dispatchEvent B { f with time := (i0, EvKind.net, T).2.2 }
            (i0, EvKind.net, T) = dispatchNet B { f with time := T } i0 :=
          rfl
        rw [hde] at hm
        unfold dispatchNet at hm
        cases hq : firstMinIdx (fun mm => mm.deliveryTime)
            (ioAt { f with time := T } i0).transitQueue with
        | none => rw [hq] at hm; exact absurd hm (List.not_mem_nil _)
        | some pm =>
          obtain ⟨p, m0⟩ := pm
          rw [hq] at hm
          simp only at hm
          split at hm
          · rw [List.mem_singleton] at hm
            have hmm : m = m0.msgId :=
              congrArg (fun ev =>
                match ev with
                | MicroEvent.recv _ x _ => x
                | _ => 0) hm
            have hmem : m0 ∈ (ioAt f i0).transitQueue :=
              firstMinIdx_mem _ _ _ _ hq
            cases hsv : f.servers[i0]? with
            | none =>
              unfold ioAt at hmem
              rw [hsv] at hmem
              exact absurd hmem (List.not_mem_nil _)
            | some s =>
              have hq2 : m0 ∈ s.io.transitQueue := by
                unfold ioAt at hmem
                rw [hsv] at hmem
                exact hmem
              rw [hmm]
              exact mem_transitIdsList_queue f.servers i0 s hsv m0 hq2
          · rw [List.mem_singleton] at hm
            exact absurd hm (by simp)

/-- Every in-flight message after a step was either already in flight before
the step or had its send callback fired during the step. -/
theorem step_transit_sub (B : Behavior) (f f1 : raft_fixture)
    (tr : List MicroEvent) (h : raft_fixture_step B f = .ok f1 tr) (m : Nat)
    (hm : m ∈ transitIds f1) :
    m ∈ transitIds f ∨ ∃ j t2, MicroEvent.sendDone j m t2 ∈ tr := by
  obtain ⟨htr, hsrv⟩ := step_trace_eq B f f1 tr h
  rw [transitIds_eq_of_servers f1 (stepDispatch B f).1 hsrv] at hm
  rw [htr]
  clear htr hsrv h
  cases hs : selectSendCompletion f with
  | some ipe =>
    obtain ⟨i0, p0, e0⟩ := ipe
    rw [stepDispatch_phase1 B f i0 p0 e0 hs] at hm ⊢
    rw [trace_firePhase1]
    unfold firePhase1 at hm
    simp only at hm
    rw [transitIds_withEvent, transitIds_processRequests] at hm
    split at hm
    · rcases mem_transitIds_pushTransit _ _ _ m hm with h3 | h4
      · rw [transitIds_setRaft, transitIds_bumpSend, transitIds_withTime,
          transitIds_eraseSend] at h3
        exact Or.inl h3
      · refine Or.inr ⟨i0, e0.msg.type, ?_⟩
        rw [h4]
        exact List.mem_singleton.mpr rfl
    · rw [transitIds_setRaft, transitIds_bumpSend, transitIds_withTime,
        transitIds_eraseSend] at hm
      exact Or.inl hm
  | none =>
    cases hp : phase2Select f with
    | none =>
      rw [stepDispatch_idle B f hs hp] at hm
      exact Or.inl hm
    | some c =>
      obtain ⟨i0, k, T⟩ := c
      rw [stepDispatch_phase2 B f (i0, k, T) hs hp] at hm
      cases k with
      | tick =>
        have hde : dispatchEvent B { f with time := (i0, EvKind.tick, T).2.2 }
            (i0, EvKind.tick, T) = dispatchTick B { f with time := T } i0 :=
          rfl
        rw [hde] at hm
        unfold dispatchTick at hm
        simp only at hm
        rw [transitIds_withEvent, transitIds_processRequests,
          transitIds_expiry, transitIds_setRaft, transitIds_withTime] at hm
        exact Or.inl hm
      | disk =>
        have hde : dispatchEvent B { f with time := (i0, EvKind.disk, T).2.2 }
            (i0, EvKind.disk, T) = dispatchDisk B { f with time := T } i0 :=
          rfl
        rw [hde] at hm
        unfold dispatchDisk at hm
        cases hq : firstMinIdx (fun a => a.completionTime)
            (ioAt { f with time := T } i0).appendQueue with
        | none =>
          rw [hq] at hm
          rw [transitIds_withEvent, transitIds_withTime] at hm
          exact Or.inl hm
        | some pa =>
          obtain ⟨p, a⟩ := pa
          rw [hq] at hm
          simp only at hm
          rw [transitIds_withEvent, transitIds_processRequests,
            transitIds_setRaft] at hm
          split at hm
          · rw [transitIds_eraseAppend, transitIds_withTime] at hm
            exact Or.inl hm
          · rw [transitIds_appendLog, transitIds_eraseAppend,
              transitIds_withTime] at hm
            exact Or.inl hm
      | net =>
        have hde : dispatchEvent B { f with time := (i0, EvKind.net, T).2.2 }
            (i0, EvKind.net, T) = dispatchNet B { f with time := T } i0 :=
          rfl
        rw [hde] at hm
        unfold dispatchNet at hm
        cases hq : firstMinIdx (fun mm => mm.deliveryTime)
            (ioAt { f with time := T } i0).transitQueue with
        | none =>
          rw [hq] at hm
          rw [transitIds_withEvent, transitIds_withTime] at hm
          exact Or.inl hm
        | some pm =>
          obtain ⟨p, m0⟩ := pm
          rw [hq] at hm
          simp only at hm
          split at hm
          · rw [transitIds_withEvent, transitIds_processRequests,
              transitIds_setRaft, transitIds_bumpRecv] at hm
            have hh := mem_transitIds_erase _ _ _ _ hm
            rw [transitIds_withTime] at hh
            exact Or.inl hh
          · rw [transitIds_withEvent] at hm
            have hh := mem_transitIds_erase _ _ _ _ hm
            rw [transitIds_withTime] at hh
            exact Or.inl hh

/-- The send callback for ghost message id `m` fired at some step strictly
before step `p` of the trace. -/
def SendDoneBefore (trs : List (List MicroEvent)) (p m : Nat) : Prop :=
  ∃ q, q < p ∧ ∃ tr2 j t2, trs[q]? = some tr2 ∧
    MicroEvent.sendDone j m t2 ∈ tr2

theorem stepsTrace_recv_send (B : Behavior) :
    ∀ (k : Nat) (f f' : raft_fixture) (trs : List (List MicroEvent))
      (P : Nat → Prop),
      stepsTrace B k f = some (f', trs) →
      (∀ m, m ∈ transitIds f → P m) →
      ∀ p tr i m t, trs[p]? = some tr → MicroEvent.recv i m t ∈ tr →
        P m ∨ SendDoneBefore trs p m := by
  intro k
  induction k with
  | zero =>
    intro f f' trs P h hP p tr i m t hp hm
    simp only [stepsTrace, Option.some.injEq, Prod.mk.injEq] at h
    rw [← h.2] at hp
    exact absurd hp (by simp)
  | succ k ih =>
    intro f f' trs P h hP p tr i m t hp hm
    simp only [stepsTrace] at h
    cases hstep : raft_fixture_step B f with
    | fatal => rw [hstep] at h; exact absurd h (by simp)
    | ok f1 tr0 =>
      rw [hstep] at h
      simp only at h
      cases hrest : stepsTrace B k f1 with
      | none => rw [hrest] at h; exact absurd h (by simp)
      | some p2 =>
        obtain ⟨f2, trs2⟩ := p2
        rw [hrest] at h
        simp only [Option.some.injEq, Prod.mk.injEq] at h
        obtain ⟨h1, h2⟩ := h
        rw [← h2] at hp
        cases p with
        | zero =>
          rw [List.getElem?_cons_zero] at hp
          simp only [Option.some.injEq] at hp
          rw [← hp] at hm
          exact Or.inl (hP m (step_recv_transit B f f1 tr0 hstep i m t hm))
        | succ q0 =>
          rw [List.getElem?_cons_succ] at hp
          have hind := ih f1 f2 trs2
            (fun m2 => P m2 ∨ ∃ j t2, MicroEvent.sendDone j m2 t2 ∈ tr0)
            hrest
            (fun m2 hm2 =>
              (step_transit_sub B f f1 tr0 hstep m2 hm2).elim
                (fun hh => Or.inl (hP m2 hh)) Or.inr)
            q0 tr i m t hp hm
          rw [← h2]
          rcases hind with (hPm | ⟨j, t2, hsd⟩) | hbefore
          · exact Or.inl hPm
          · refine Or.inr ⟨0, Nat.succ_pos q0, tr0, j, t2, ?_, hsd⟩
            rw [List.getElem?_cons_zero]
          · obtain ⟨q, hq, tr2, j, t2, hq2, hmem⟩ := hbefore
            refine Or.inr ⟨q + 1, Nat.succ_lt_succ hq, tr2, j, t2, ?_, hmem⟩
            rw [List.getElem?_cons_succ]
            exact hq2

/-- C5: for every message delivered during a run of the step engine starting
with no messages in flight, the sender's send callback fires at a step
strictly before the step at which the receiver's recv callback fires; no
message is delivered before its send completion has been dispatched. -/
theorem recv_after_send (B : Behavior) (k : Nat) (f f' : raft_fixture)
    (trs : List (List MicroEvent))
    (h : stepsTrace B k f = some (f', trs))
    (h0 : transitIds f = []) (p : Nat) (tr : List MicroEvent)
    (i m t : Nat) (hp : trs[p]? = some tr)
    (hm : MicroEvent.recv i m t ∈ tr) : SendDoneBefore trs p m := by
  have hh := stepsTrace_recv_send B k f f' trs (fun _ => False) h
    (fun m2 hm2 => by rw [h0] at hm2; exact absurd hm2 (List.not_mem_nil m2))
    p tr i m t hp hm
  rcases hh with hF | hq
  · exact hF.elim
  · exact hq

theorem recv_after_send_witness :
    SendDoneBefore (runOk (stepsTrace sendingBehavior 7 fixture3)).2 6 0 :=
  recv_after_send sendingBehavior 7 fixture3
    (runOk (stepsTrace sendingBehavior 7 fixture3)).1
    (runOk (stepsTrace sendingBehavior 7 fixture3)).2 rfl rfl 6
    [MicroEvent.recv 1 0 3] 1 0 3 (by decide) (by decide)

end RaftFixture
